import Mathlib

/-!
SimpleTimeService (`app/main.go`): a shallow embedding of the client-IP
resolver, the two handlers, the server configuration and the shutdown path,
with the functions of the Go standard library they call.

A Go string is a sequence of bytes.  It is modelled by what Go's own decoder
(`utf8.DecodeRuneInString`, which `strings.TrimSpace` and `encoding/json` run
over it) reads from it: a list of code points and of single bytes that are not
part of any valid UTF-8 encoding (`Str`).  The separators the program looks for
(`,` and `:`) are ASCII, so cutting at such a position is the same on bytes and
on this list.  Text that is valid UTF-8 by construction (timestamps, the JSON
the encoder writes, log lines) is a list of code points (`Text`).

The calendar arithmetic of package `time` follows Go 1.22 (`absDate`, `Date`);
later releases reach the same proleptic Gregorian dates by another route.
-/

set_option autoImplicit false

namespace SimpleTimeService

/-- Valid UTF-8 text, as the list of its code points. -/
abbrev Text := List Char

/-- One step of Go's UTF-8 decoding of a string: a code point, or a byte that
is not part of a valid encoding (Go reads it as `utf8.RuneError` of width 1). -/
inductive Rune where
  | char (c : Char)
  | invalid (b : Nat)
deriving DecidableEq

instance : Coe Char Rune := ⟨Rune.char⟩

/-- Go `string`, as the list of the steps of its decoding. -/
abbrev Str := List Rune

/-- The Go string with the given (valid) text. -/
def str (s : String) : Str := s.toList.map Rune.char

/-! ## The parts of the Go standard library used by `getClientIP` -/

/-- Go `unicode.IsSpace`: the Latin-1 cases are listed in the library's switch,
the others are the code points of the `White_Space` table above Latin-1.  An
invalid byte is read as `U+FFFD`, which is not a space. -/
def isSpace : Rune → Bool
  | .char c =>
    let r := c.toNat
    if r ≤ 0xFF then
      r = 0x09 || r = 0x0A || r = 0x0B || r = 0x0C || r = 0x0D || r = 0x20 || r = 0x85
        || r = 0xA0
    else
      r = 0x1680 || (0x2000 ≤ r && r ≤ 0x200A) || r = 0x2028 || r = 0x2029 || r = 0x202F
        || r = 0x205F || r = 0x3000
  | .invalid _ => false

/-- Go `strings.TrimLeftFunc(s, unicode.IsSpace)`. -/
def TrimLeftSpace (s : Str) : Str := s.dropWhile isSpace

/-- Go `strings.TrimRightFunc(s, unicode.IsSpace)`. -/
def TrimRightSpace (s : Str) : Str := (s.reverse.dropWhile isSpace).reverse

/-- Go `strings.TrimSpace`: `TrimRightFunc(TrimLeftFunc(s, f), f)`. -/
def TrimSpace (s : Str) : Str := TrimRightSpace (TrimLeftSpace s)

/-- Go `strings.Split(s, sep)` for a one-character separator: the pieces of `s`
between the occurrences of `sep`, in order (never an empty slice). -/
def Split : Str → Char → List Str
  | [], _ => [[]]
  | c :: cs, sep =>
    if c = Rune.char sep then [] :: Split cs sep
    else
      match Split cs sep with
      | [] => [[c]]
      | piece :: rest => (c :: piece) :: rest

/-- Go `strings.LastIndex(s, sep)` for a one-character `sep`: the index of the
last occurrence, `none` for Go's `-1`. -/
def LastIndex : Str → Char → Option Nat
  | [], _ => none
  | x :: xs, c =>
    match LastIndex xs c with
    | some i => some (i + 1)
    | none => if x = Rune.char c then some 0 else none

/-- Go `validHeaderFieldByte`: the bytes of an RFC 7230 token, which are the
ASCII letters and digits and fifteen ASCII signs. -/
def validHeaderFieldByte : Rune → Bool
  | .char c =>
    let n := c.toNat
    (65 ≤ n && n ≤ 90) || (97 ≤ n && n ≤ 122) || (48 ≤ n && n ≤ 57)
      || [33, 35, 36, 37, 38, 39, 42, 43, 45, 46, 94, 95, 96, 124, 126].contains n
  | .invalid _ => false

/-- The letter case the canonical form gives a byte: upper case where `upper`
is set, lower case elsewhere. -/
def canonicalByte (upper : Bool) : Rune → Rune
  | .char c =>
    let n := c.toNat
    if upper && (97 ≤ n && n ≤ 122) then .char (Char.ofNat (n - 32))
    else if !upper && (65 ≤ n && n ≤ 90) then .char (Char.ofNat (n + 32))
    else .char c
  | .invalid b => .invalid b

/-- The loop of Go `canonicalMIMEHeaderKey`: upper case for the first letter
and after each dash, lower case for the other letters. -/
def canonicalLoop : Bool → Str → Str
  | _, [] => []
  | upper, c :: rest =>
    canonicalByte upper c :: canonicalLoop (canonicalByte upper c == Rune.char '-') rest

/-- Go `textproto.CanonicalMIMEHeaderKey`: the canonical form of a key made of
token bytes, any other key unchanged. -/
def CanonicalMIMEHeaderKey (s : Str) : Str :=
  if s.all validHeaderFieldByte then canonicalLoop true s else s

/-- Go `http.Header` (`map[string][]string`), as an association list read by
its first matching key. -/
abbrev Header := List (Str × List Str)

/-- Map lookup `h[key]`: the nil slice when the key is absent. -/
def Header.values (h : Header) (key : Str) : List Str :=
  match h.lookup key with
  | some vs => vs
  | none => []

/-- Go `Header.Get(key)`: the first value stored under the canonical form of
the key, the empty string when there is none. -/
def Header.Get (h : Header) (key : Str) : Str :=
  match Header.values h (CanonicalMIMEHeaderKey key) with
  | [] => []
  | v :: _ => v

/-- Go `Header.Set(key, value)`: replaces the values stored under the
canonical form of the key. -/
def Header.Set (h : Header) (key value : Str) : Header :=
  (CanonicalMIMEHeaderKey key, [value])
    :: h.filter (fun kv => kv.1 ≠ CanonicalMIMEHeaderKey key)

/-- Go `Header.Del(key)`: removes the entry of the canonical form of the key. -/
def Header.Del (h : Header) (key : Str) : Header :=
  h.filter (fun kv => kv.1 ≠ CanonicalMIMEHeaderKey key)

/-- The fields of `*http.Request` the program reads. -/
structure Request where
  Header : Header
  RemoteAddr : Str

/-- The key as `getClientIP` writes it, `"X-Forwarded-For"`. -/
def xForwardedFor : Str := str "X-Forwarded-For"

/-- The key as `getClientIP` writes it, `"X-Real-IP"`; its canonical form, the
key of the map, is `"X-Real-Ip"`. -/
def xRealIP : Str := str "X-Real-IP"

/-! ## `getClientIP` -/

/-- Lines 30-37 of `main.go`: the `X-Forwarded-For` branch, `some ip` when it
executes its `return`, `none` when control falls through to line 39. -/
def forwardedBranch (r : Request) : Option Str :=
  let forwarded := Header.Get r.Header xForwardedFor
  if forwarded ≠ [] then
    let ips := Split forwarded ','
    if h : 0 < ips.length then
      some (TrimSpace (ips.get ⟨0, h⟩))
    else none
  else none

/-- Lines 45-51 of `main.go`: the peer address cut at its last colon. -/
def stripPort (ip : Str) : Str :=
  match LastIndex ip ':' with
  | some idx => ip.take idx
  | none => ip

/-- The function `getClientIP` of `main.go`. -/
def getClientIP (r : Request) : Str :=
  match forwardedBranch r with
  | some ip => ip
  | none =>
    let realIP := Header.Get r.Header xRealIP
    if realIP ≠ [] then realIP
    else stripPort r.RemoteAddr

/-- The text of `s` before its first `sep`, the whole of `s` when it has none. -/
def beforeFirst : Str → Char → Str
  | [], _ => []
  | c :: cs, sep => if c = Rune.char sep then [] else c :: beforeFirst cs sep

/-! ## Server configuration (`main`, lines 120-132) -/

/-- The process environment, read by its first matching name. -/
abbrev Env := List (Str × Str)

/-- Go `os.Getenv`: the value of the variable, empty when it is not set. -/
def Getenv (env : Env) (key : Str) : Str :=
  match env.lookup key with
  | some v => v
  | none => []

/-- Go `time.Second` as a `time.Duration` (nanoseconds). -/
def Second : Int := 1000000000

/-- The fields of `http.Server` that `main` sets (the handler apart). -/
structure Server where
  Addr : Str
  ReadTimeout : Int
  WriteTimeout : Int
  IdleTimeout : Int
deriving DecidableEq

/-- The name of the environment variable read by `main`. -/
def portVar : Str := str "PORT"

/-- The port used when `PORT` gives none. -/
def defaultPort : Str := str "8080"

/-- Lines 121-132 of `main.go`: the server built from the environment. -/
def configureServer (env : Env) : Server :=
  let port := Getenv env portVar
  let port := if port = [] then defaultPort else port
  { Addr := str ":" ++ port
    ReadTimeout := 15 * Second
    WriteTimeout := 15 * Second
    IdleTimeout := 60 * Second }

/-! ## Shutdown (`main`, lines 147-168) -/

/-- The two channels of the `select`: which one delivers first. -/
inductive Event where
  | serverError
  | shutdownSignal
deriving DecidableEq

/-- The calls `main` makes on the server after the `select`. -/
inductive ServerCall where
  | Shutdown
  | Close
deriving DecidableEq

/-- What the server answers: whether `Shutdown(ctx)` returns an error (the
30-second deadline passed, or another failure) and whether `Close()` does. -/
structure ServerOutcome where
  shutdownErr : Bool
  closeErr : Bool

/-- How the process ends: its exit code, the server calls made in order, and
the log lines written after the `select`. -/
structure ProcessEnd where
  exitCode : Nat
  calls : List ServerCall
  log : List Text
deriving DecidableEq

/-- Lines 147-168 of `main.go`.  `log.Fatalf` logs and exits with code 1;
returning from `main` exits with code 0. -/
def mainSelect (first : Event) (o : ServerOutcome) : ProcessEnd :=
  match first with
  | .serverError =>
    { exitCode := 1, calls := [], log := ["Error starting server".toList] }
  | .shutdownSignal =>
    let log := ["Received signal, starting shutdown".toList]
    if o.shutdownErr then
      let log := log ++ ["Error during shutdown".toList]
      if o.closeErr then
        { exitCode := 1, calls := [.Shutdown, .Close],
          log := log ++ ["Could not stop server gracefully".toList] }
      else
        { exitCode := 0, calls := [.Shutdown, .Close],
          log := log ++ ["Server stopped gracefully".toList] }
    else
      { exitCode := 0, calls := [.Shutdown],
        log := log ++ ["Server stopped gracefully".toList] }

/-- The function `main` of `main.go` as far as its outcome goes: the server it configures
from the environment, and how the process ends given which channel of the
`select` delivers first and what the server answers. -/
def main (env : Env) (first : Event) (o : ServerOutcome) : Server × ProcessEnd :=
  (configureServer env, mainSelect first o)

/-! ## Time: the parts of Go's `time` package behind `Format` and `Parse` -/

/-- Go `time.Time` read in UTC: seconds since the Unix epoch and the
nanoseconds within the second (`0 ≤ nsec < 10^9` in every value Go builds). -/
structure Time where
  sec : Int
  nsec : Nat
deriving DecidableEq, Repr

/-- Go conversion `uint64(x)`. -/
def toUint64 (x : Int) : Nat := (x % 18446744073709551616).toNat

/-- Go conversion `int64(x)`. -/
def toInt64 (x : Int) : Int :=
  (x + 9223372036854775808) % 18446744073709551616 - 9223372036854775808

def secondsPerDay : Nat := 86400
def daysPer400Years : Nat := 146097
def daysPer100Years : Nat := 36524
def daysPer4Years : Nat := 1461
def absoluteZeroYear : Int := -292277022399
def unixToInternal : Int := 62135596800
def absoluteToInternal : Int := -9223371966579724800

/-- Go `isLeap`.  The remainders are only compared with zero, so the rounding
convention of `%` does not matter. -/
def isLeap (year : Int) : Bool :=
  year % 4 == 0 && (year % 100 != 0 || year % 400 == 0)

/-- Go `daysBefore[i]`: the days of a non-leap year before month `i + 1`. -/
def daysBefore (i : Nat) : Nat :=
  [0, 31, 59, 90, 120, 151, 181, 212, 243, 273, 304, 334, 365].getD i 0

/-- Go `Time.abs` for a UTC time: seconds since the absolute zero year. -/
def Time.abs (t : Time) : Nat :=
  toUint64 (t.sec + (unixToInternal + (-absoluteToInternal)))

/-- Go `absDate(abs, true)`: year, month and day of month. -/
def absDate (abs : Nat) : Int × Nat × Nat :=
  let d := abs / secondsPerDay
  let n := d / daysPer400Years
  let y := 400 * n
  let d := d - daysPer400Years * n
  let n := d / daysPer100Years
  let n := n - n / 4
  let y := y + 100 * n
  let d := d - daysPer100Years * n
  let n := d / daysPer4Years
  let y := y + 4 * n
  let d := d - daysPer4Years * n
  let n := d / 365
  let n := n - n / 4
  let y := y + n
  let d := d - 365 * n
  let year : Int := toInt64 (y : Int) + absoluteZeroYear
  let day := d
  if isLeap year && day == 31 + 29 - 1 then (year, 2, 29)
  else
    let day := if isLeap year && day > 31 + 29 - 1 then day - 1 else day
    let month := day / 31
    let endd := daysBefore (month + 1)
    if day ≥ endd then (year, month + 2, day - endd + 1)
    else (year, month + 1, day - daysBefore month + 1)

/-- Go `absClock`: hour, minute and second within the day. -/
def absClock (abs : Nat) : Nat × Nat × Nat :=
  let sec := abs % secondsPerDay
  let hour := sec / 3600
  let sec := sec - hour * 3600
  let min := sec / 60
  let sec := sec - min * 60
  (hour, min, sec)

/-- Go `norm(hi, lo, base)`. -/
def norm (hi lo base : Int) : Int × Int :=
  let (hi, lo) :=
    if lo < 0 then
      let n := (-lo - 1) / base + 1
      (hi - n, lo + n * base)
    else (hi, lo)
  if lo ≥ base then
    let n := lo / base
    (hi + n, lo - n * base)
  else (hi, lo)

/-- Go `daysSinceEpoch(year)`. -/
def daysSinceEpoch (year : Int) : Nat :=
  let y := toUint64 (year - absoluteZeroYear)
  let n := y / 400
  let y := y - 400 * n
  let d := daysPer400Years * n
  let n := y / 100
  let y := y - 100 * n
  let d := d + daysPer100Years * n
  let n := y / 4
  let y := y - 4 * n
  let d := d + daysPer4Years * n
  d + 365 * y

/-- Go `Date(year, month, day, hour, min, sec, nsec, UTC)`. -/
def Date (year month day hour min sec nsec : Int) : Time :=
  let ym := norm year (month - 1) 12
  let year := ym.1
  let month := ym.2 + 1
  let sn := norm sec nsec 1000000000
  let nsec := sn.2
  let ms := norm min sn.1 60
  let sec := ms.2
  let hm := norm hour ms.1 60
  let min := hm.2
  let dh := norm day hm.1 24
  let hour := dh.2
  let day := dh.1
  let d : Int := daysSinceEpoch year
  let d := d + daysBefore (month - 1).toNat
  let d := if isLeap year && month ≥ 3 then d + 1 else d
  let d := d + (day - 1)
  let abs := toUint64 (toUint64 (d * 86400) + toUint64 (hour * 3600 + min * 60 + sec))
  let unix := toInt64 (toInt64 abs + (absoluteToInternal + (-unixToInternal)))
  { sec := unix, nsec := nsec.toNat }

/-- Go `daysIn(m, year)`. -/
def daysIn (m : Nat) (year : Int) : Nat :=
  if m = 2 && isLeap year then 29 else daysBefore m - daysBefore (m - 1)

/-- The decimal digit `d` as a character. -/
def digitChar (d : Nat) : Char := Char.ofNat (48 + d % 10)

/-- The `w` low-order decimal digits of `n`, most significant first. -/
def lastDigits : Nat → Nat → Text
  | 0, _ => []
  | w + 1, n => lastDigits w (n / 10) ++ [digitChar n]

/-- The digit-counting loop of Go `appendInt`, run for at most `fuel` steps. -/
def numDigitsAux : Nat → Nat → Nat
  | 0, _ => 1
  | fuel + 1, u => if u < 10 then 1 else numDigitsAux fuel (u / 10) + 1

/-- The number of decimal digits of `u` (one for zero). -/
def numDigits (u : Nat) : Nat := numDigitsAux u u

/-- Go `appendInt(b, x, width)`, the appended text: a sign for a negative `x`,
then the decimal digits zero-padded to `width`. -/
def appendInt (x : Int) (width : Nat) : Text :=
  (if x < 0 then ['-'] else []) ++ lastDigits (max width (numDigits x.natAbs)) x.natAbs

/-- The loop `for len(b) > 0 && b[len(b)-1] == '0'` of `appendNano`. -/
def trimRightZeros (b : Text) : Text := (b.reverse.dropWhile (fun c => c == '0')).reverse

/-- Go `appendNano(b, nanosec, std)` for the `.999999999` of `RFC3339Nano`. -/
def appendNano (b : Text) (nanosec : Nat) : Text :=
  if nanosec = 0 then b
  else
    let b := b ++ ['.'] ++ appendInt nanosec 9
    let b := trimRightZeros b
    if b.getLast? = some '.' then b.dropLast else b

/-- Go `t.UTC().Format(time.RFC3339Nano)` (`appendFormatRFC3339`). -/
def FormatRFC3339Nano (t : Time) : Text :=
  let abs := t.abs
  let date := absDate abs
  let clock := absClock abs
  let b := appendInt date.1 4 ++ ['-'] ++ appendInt date.2.1 2 ++ ['-'] ++ appendInt date.2.2 2
    ++ ['T'] ++ appendInt clock.1 2 ++ [':'] ++ appendInt clock.2.1 2 ++ [':']
    ++ appendInt clock.2.2 2
  appendNano b t.nsec ++ ['Z']

/-- Go slice expression `s[a:b]`. -/
def slice (s : Text) (a b : Nat) : Text := (s.drop a).take (b - a)

/-- A byte between `'0'` and `'9'`. -/
def isDigitChar (c : Char) : Bool := decide ('0' ≤ c) && decide (c ≤ '9')

/-- Go `isDigit(s, i)`: in range and a decimal digit. -/
def isDigit (s : Text) (i : Nat) : Bool :=
  match s.get? i with
  | some c => isDigitChar c
  | none => false

/-- The accumulation loop of `parseUint` and `leadingInt`: the number read from
a string of digits, `none` at the first other character. -/
def parseDigits : Text → Nat → Option Nat
  | [], x => some x
  | c :: cs, x => if isDigitChar c then parseDigits cs (x * 10 + (c.toNat - 48)) else none

/-- The closure `parseUint` of Go `parseRFC3339`: `none` stands for `ok = false`. -/
def parseUint (s : Text) (min max : Nat) : Option Nat :=
  match parseDigits s 0 with
  | some x => if x < min ∨ max < x then none else some x
  | none => none

/-- The scanning loop `for ; n < len(s) && isDigit(s, n); n++` started at `start`. -/
def scanDigits (s : Text) (start : Nat) : Nat :=
  start + ((s.drop start).takeWhile isDigitChar).length

/-- Go `parseNanoseconds(value, nbytes)`: the value starts with a point or a
comma; at most nine digits after it are read and scaled to nanoseconds. -/
def parseNanoseconds (value : Text) (nbytes : Nat) : Option Nat :=
  if ¬ (value.get? 0 = some '.' ∨ value.get? 0 = some ',') then none
  else
    let nbytes := if nbytes > 10 then 10 else nbytes
    match parseDigits (slice value 1 nbytes) 0 with
    | some ns => some (ns * 10 ^ (10 - nbytes))
    | none => none

/-- The time-zone suffix other than `Z` in `parseRFC3339`: the offset in seconds. -/
def parseZoneRFC3339 (s : Text) : Option Int :=
  if s.length ≠ 6 then none
  else
    match parseUint (slice s 1 3) 0 23, parseUint (slice s 4 6) 0 59 with
    | some hr, some mm =>
      if (s.get? 0 = some '-' ∨ s.get? 0 = some '+') ∧ s.get? 3 = some ':' then
        let zoneOffset : Int := ((hr * 60 + mm) * 60 : Nat)
        some (if s.get? 0 = some '-' then -zoneOffset else zoneOffset)
      else none
    | _, _ => none

/-- Go `parseRFC3339(s, Local)`: the instant read, `none` for `ok = false`. -/
def parseRFC3339 (s : Text) : Option Time :=
  if s.length < 19 then none
  else
    match parseUint (slice s 0 4) 0 9999, parseUint (slice s 5 7) 1 12 with
    | some year, some month =>
      match parseUint (slice s 8 10) 1 (daysIn month year),
          parseUint (slice s 11 13) 0 23, parseUint (slice s 14 16) 0 59,
          parseUint (slice s 17 19) 0 59 with
      | some day, some hour, some min, some sec =>
        if s.get? 4 = some '-' ∧ s.get? 7 = some '-' ∧ s.get? 10 = some 'T'
            ∧ s.get? 13 = some ':' ∧ s.get? 16 = some ':' then
          let s := s.drop 19
          let frac : Nat × Text :=
            if s.length ≥ 2 ∧ s.get? 0 = some '.' ∧ isDigit s 1 then
              let n := scanDigits s 2
              ((parseNanoseconds s n).getD 0, s.drop n)
            else (0, s)
          let nsec := frac.1
          let s := frac.2
          let t := Date year month day hour min sec nsec
          if s = ['Z'] then some t
          else
            match parseZoneRFC3339 s with
            | some zoneOffset => some { t with sec := t.sec - zoneOffset }
            | none => none
        else none
      | _, _, _, _ => none
    | _, _ => none

/-- Go `skip(value, prefix)` for a one-character prefix other than a space. -/
def skipChar (value : Text) (c : Char) : Option Text :=
  match value with
  | v :: rest => if v = c then some rest else none
  | [] => none

/-- Go `getnum(s, fixed)`: one or two digits (two when `fixed`), and the rest. -/
def getnum (s : Text) (fixed : Bool) : Option (Nat × Text) :=
  if !isDigit s 0 then none
  else if !isDigit s 1 then
    if fixed then none
    else
      match s with
      | c :: rest => some (c.toNat - 48, rest)
      | [] => none
  else
    match s with
    | c0 :: c1 :: rest => some ((c0.toNat - 48) * 10 + (c1.toNat - 48), rest)
    | _ => none

/-- The `Z07:00` element of the layout in Go `parse`: `none` is an error,
`some (none, rest)` is `Z`, `some (some offset, rest)` a numeric offset. -/
def parseZoneLayout (value : Text) : Option (Option Int × Text) :=
  match value with
  | 'Z' :: rest => some (none, rest)
  | _ =>
    if value.length < 6 then none
    else if value.get? 3 ≠ some ':' then none
    else
      match getnum (slice value 1 3) true, getnum (slice value 4 6) true with
      | some (hr, _), some (mm, _) =>
        if hr > 24 ∨ mm > 60 then none
        else
          let zoneOffset : Int := ((hr * 60 + mm) * 60 : Nat)
          if value.get? 0 = some '+' then some (some zoneOffset, value.drop 6)
          else if value.get? 0 = some '-' then some (some (-zoneOffset), value.drop 6)
          else none
      | _, _ => none

/-- The end of Go `parse` on the layout of `RFC3339Nano`, from the element
`.999999999` on: the optional fraction, the zone, the check that nothing is
left, the validation of the day of the month, and the construction of the time. -/
def parseLayoutRest (value : Text) (year month day hour min sec : Nat) : Option Time :=
  let frac : Option (Nat × Text) :=
    if value.length < 2 ∨ ¬ (value.get? 0 = some '.' ∨ value.get? 0 = some ',')
        ∨ !isDigit value 1 then some (0, value)
    else
      let n := scanDigits value 1
      (parseNanoseconds value n).map (fun ns => (ns, value.drop n))
  match frac with
  | none => none
  | some (nsec, value) =>
  match parseZoneLayout value with
  | none => none
  | some (zone, value) =>
  if value ≠ [] then none
  else if day < 1 ∨ day > daysIn month year then none
  else
    let t := Date year month day hour min sec nsec
    match zone with
    | none => some t
    | some zoneOffset => some { t with sec := t.sec - zoneOffset }

/-- Go `parse(RFC3339Nano, value, UTC, Local)`: the general layout-driven
parser, run on the layout `2006-01-02T15:04:05.999999999Z07:00`. -/
def parseLayout (value : Text) : Option Time :=
  if value.length < 4 ∨ !isDigit value 0 then none
  else
    match parseDigits (slice value 0 4) 0 with
    | none => none
    | some year =>
    match (skipChar (value.drop 4) '-').bind (fun v => getnum v true) with
    | none => none
    | some (month, value) =>
    if month = 0 ∨ 12 < month then none
    else
    match (skipChar value '-').bind (fun v => getnum v true) with
    | none => none
    | some (day, value) =>
    match (skipChar value 'T').bind (fun v => getnum v false) with
    | none => none
    | some (hour, value) =>
    if 24 ≤ hour then none
    else
    match (skipChar value ':').bind (fun v => getnum v true) with
    | none => none
    | some (min, value) =>
    if 60 ≤ min then none
    else
    match (skipChar value ':').bind (fun v => getnum v true) with
    | none => none
    | some (sec, value) =>
    if 60 ≤ sec then none
    else parseLayoutRest value year month day hour min sec

/-- Go `time.Parse(time.RFC3339Nano, value)`: the fast path, and the general
parser when the fast path does not accept. -/
def ParseRFC3339Nano (value : Text) : Option Time :=
  match parseRFC3339 value with
  | some t => some t
  | none => parseLayout value

/-! ### Pieces of the functions above, named for the proofs -/

/-- The year count and the day of the year computed by `absDate` from the
number of days. -/
def yearDay (D : Nat) : Nat × Nat :=
  let n := D / daysPer400Years
  let y := 400 * n
  let d := D - daysPer400Years * n
  let n := d / daysPer100Years
  let n := n - n / 4
  let y := y + 100 * n
  let d := d - daysPer100Years * n
  let n := d / daysPer4Years
  let y := y + 4 * n
  let d := d - daysPer4Years * n
  let n := d / 365
  let n := n - n / 4
  let y := y + n
  let d := d - 365 * n
  (y, d)

/-- The month and the day of the month computed by `absDate` from the day of
the year. -/
def monthDay (leap : Bool) (yday : Nat) : Nat × Nat :=
  if leap && yday == 31 + 29 - 1 then (2, 29)
  else
    let day := if leap && yday > 31 + 29 - 1 then yday - 1 else yday
    let month := day / 31
    let endd := daysBefore (month + 1)
    if day ≥ endd then (month + 2, day - endd + 1)
    else (month + 1, day - daysBefore month + 1)

/-- The seconds of the instants whose UTC year lies between 0 and 9999. -/
def inYearRange (t : Time) : Prop :=
  -62167219200 ≤ t.sec ∧ t.sec ≤ 253402300799

/-- The fraction `appendNano` writes: nothing for zero, otherwise a point and
the nine digits without their trailing zeros. -/
def fracPart (ns : Nat) : Text :=
  if ns = 0 then [] else '.' :: trimRightZeros (lastDigits 9 ns)

/-- What `parseRFC3339` does after the nineteen characters of date and time. -/
def parseRest (rest : Text) (year month day hour min sec : Nat) : Option Time :=
  let frac : Nat × Text :=
    if rest.length ≥ 2 ∧ rest.get? 0 = some '.' ∧ isDigit rest 1 then
      ((parseNanoseconds rest (scanDigits rest 2)).getD 0, rest.drop (scanDigits rest 2))
    else (0, rest)
  if frac.2 = ['Z'] then some (Date year month day hour min sec frac.1)
  else
    match parseZoneRFC3339 frac.2 with
    | some zoneOffset =>
      some { Date year month day hour min sec frac.1 with
        sec := (Date year month day hour min sec frac.1).sec - zoneOffset }
    | none => none

/-! ## JSON encoding and the response writer -/

/-- The hexadecimal digit of Go's `hex` table. -/
def hexChar (n : Nat) : Char := "0123456789abcdef".toList.getD n '0'

/-- Go `htmlSafeSet[b]`: the ASCII bytes `encoding/json` copies unescaped. -/
def htmlSafe (c : Char) : Bool :=
  decide (0x20 ≤ c.toNat) && decide (c.toNat < 0x80) && c != '"' && c != '&' && c != '<'
    && c != '>' && c != '\\'

/-- The escape `encoding/json` writes for one code point of a string. -/
def escapeChar (c : Char) : Text :=
  let b := c.toNat
  if b < 0x80 then
    if htmlSafe c then [c]
    else if c = '\\' ∨ c = '"' then ['\\', c]
    else if b = 0x08 then ['\\', 'b']
    else if b = 0x0C then ['\\', 'f']
    else if b = 0x0A then ['\\', 'n']
    else if b = 0x0D then ['\\', 'r']
    else if b = 0x09 then ['\\', 't']
    else ['\\', 'u', '0', '0', hexChar (b / 16), hexChar (b % 16)]
  else if b = 0x2028 ∨ b = 0x2029 then ['\\', 'u', '2', '0', '2', hexChar (b % 16)]
  else [c]

/-- What `encoding/json` writes for one step of the decoding of a string: the
escape of a code point, and for a byte that is not valid UTF-8 the six
characters of the escape of `U+FFFD` (backslash, `u`, `f`, `f`, `f`, `d`). -/
def escapeRune : Rune → Text
  | .char c => escapeChar c
  | .invalid _ => ['\\', 'u', 'f', 'f', 'f', 'd']

/-- The loop of Go `appendString` over the string. -/
def escapeString : Str → Text
  | [] => []
  | c :: cs => escapeRune c ++ escapeString cs

/-- Go `appendString(dst, s, escapeHTML = true)`: a quoted JSON string. -/
def appendString (s : Str) : Text := ['"'] ++ escapeString s ++ ['"']

/-- The Go string holding a valid text. -/
def ofText (t : Text) : Str := t.map Rune.char

/-- The code point `U+FFFD`, Go's `unicode.ReplacementChar`. -/
def replacementChar : Char := Char.ofNat 0xFFFD

/-- The text of a Go string with `U+FFFD` in the place of each byte that is
not valid UTF-8 (byte by byte, as `encoding/json` replaces them); a string that
is valid UTF-8 is kept as it is. -/
def replaceInvalidUTF8 : Str → Text
  | [] => []
  | .char c :: rest => c :: replaceInvalidUTF8 rest
  | .invalid _ :: rest => replacementChar :: replaceInvalidUTF8 rest

/-! ### Reading JSON (RFC 8259, as `encoding/json` decodes it)

What a JSON reader gets from a body: used to say what the fields of a body
are.  The reader covers objects whose members are strings; it does not read
escapes of UTF-16 surrogates. -/

/-- The value of a hexadecimal digit. -/
def hexVal (c : Char) : Option Nat :=
  let n := c.toNat
  if 48 ≤ n ∧ n ≤ 57 then some (n - 48)
  else if 97 ≤ n ∧ n ≤ 102 then some (n - 87)
  else if 65 ≤ n ∧ n ≤ 70 then some (n - 55)
  else none

/-- The code point of the escape `\uXXXX` with the four given digits. -/
def readEscape4 (a b c d : Char) : Option Char :=
  match hexVal a, hexVal b, hexVal c, hexVal d with
  | some x, some y, some z, some w =>
    let n := ((x * 16 + y) * 16 + z) * 16 + w
    if 0xD800 ≤ n ∧ n ≤ 0xDFFF then none else some (Char.ofNat n)
  | _, _, _, _ => none

/-- The character of a two-character escape. -/
def simpleEscape (e : Char) : Option Char :=
  if e = '"' then some '"'
  else if e = '\\' then some '\\'
  else if e = '/' then some '/'
  else if e = 'b' then some (Char.ofNat 0x08)
  else if e = 'f' then some (Char.ofNat 0x0C)
  else if e = 'n' then some (Char.ofNat 0x0A)
  else if e = 'r' then some (Char.ofNat 0x0D)
  else if e = 't' then some (Char.ofNat 0x09)
  else none

/-- One more character in front of the value of a string being read. -/
def prependChar (c : Char) : Option (Text × Text) → Option (Text × Text)
  | some (value, after) => some (c :: value, after)
  | none => none

/-- A JSON string read from just after its opening quote: its value and the
text after its closing quote; `none` when the text is not a JSON string. -/
def readString : Text → Option (Text × Text)
  | [] => none
  | c :: rest =>
    if c = '"' then some ([], rest)
    else if c = '\\' then
      match rest with
      | [] => none
      | e :: rest1 =>
        if e = 'u' then
          match rest1 with
          | a :: b :: x :: d :: rest2 =>
            match readEscape4 a b x d with
            | some v => prependChar v (readString rest2)
            | none => none
          | _ => none
        else
          match simpleEscape e with
          | some v => prependChar v (readString rest1)
          | none => none
    else if c.toNat < 0x20 then none
    else prependChar c (readString rest)

/-- JSON white space. -/
def isJSONSpace (c : Char) : Bool := c == ' ' || c == '\t' || c == '\n' || c == '\r'

/-- The text without its leading JSON white space. -/
def skipSpace (s : Text) : Text := s.dropWhile isJSONSpace

/-- The members of a JSON object of strings, read from its first member to
its closing brace, after which only white space may follow; at most `fuel`
members are read. -/
def readMembers : Nat → Text → Option (List (Text × Text))
  | 0, _ => none
  | fuel + 1, s =>
    match s with
    | '"' :: s1 =>
      match readString s1 with
      | some (key, s2) =>
        match skipSpace s2 with
        | ':' :: s3 =>
          match skipSpace s3 with
          | '"' :: s4 =>
            match readString s4 with
            | some (value, s5) =>
              match skipSpace s5 with
              | ',' :: s6 =>
                match readMembers fuel (skipSpace s6) with
                | some members => some ((key, value) :: members)
                | none => none
              | '\x7d' :: s6 => if skipSpace s6 = [] then some [(key, value)] else none
              | _ => none
            | none => none
          | _ => none
        | _ => none
      | none => none
    | _ => none

/-- A JSON object of strings, as the list of its members. -/
def readObject (s : Text) : Option (List (Text × Text)) :=
  match skipSpace s with
  | '\x7b' :: s1 => readMembers s.length (skipSpace s1)
  | _ => none

/-- The string member `name` of the JSON object `body`. -/
def jsonField (name : String) (body : Text) : Option Text :=
  match readObject body with
  | some members => members.lookup name.toList
  | none => none

/-- The struct `TimeResponse` of `main.go`. -/
structure TimeResponse where
  Timestamp : Str
  IP : Str
deriving DecidableEq

/-- The struct `HealthResponse` of `main.go`. -/
structure HealthResponse where
  Status : Str
deriving DecidableEq

/-- Go `json.Marshal` of a `TimeResponse`: the fields in declaration order
under their `json` tags. -/
def TimeResponse.marshal (v : TimeResponse) : Text :=
  "\x7b\"timestamp\":".toList ++ appendString v.Timestamp ++ ",\"ip\":".toList
    ++ appendString v.IP ++ ['\x7d']

/-- Go `json.Marshal` of a `HealthResponse`. -/
def HealthResponse.marshal (v : HealthResponse) : Text :=
  "\x7b\"status\":".toList ++ appendString v.Status ++ ['\x7d']

/-- What one call of `Write` on the underlying stream does: it takes all the
bytes, or it fails after taking `n` of them. -/
inductive WriteResult where
  | ok
  | err (n : Nat)
deriving DecidableEq

/-- The state of an `http.ResponseWriter`: the header map handed out by
`Header()`, whether the status line has been written, the status code, the
headers as they were when the status line was written (the ones on the wire),
the body so far, and what the coming calls of `Write` will meet. -/
structure ResponseWriter where
  header : Header
  wroteHeader : Bool
  Code : Nat
  sentHeader : Header
  Body : Text
  pending : List WriteResult

/-- A writer as the server hands it to a handler (`httptest.NewRecorder` has
the same initial state). -/
def NewRecorder (pending : List WriteResult) : ResponseWriter :=
  { header := [], wroteHeader := false, Code := 200, sentHeader := [], Body := [],
    pending := pending }

/-- Go `w.Header().Set(key, value)`. -/
def ResponseWriter.setHeader (w : ResponseWriter) (key value : Str) : ResponseWriter :=
  { w with header := Header.Set w.header key value }

/-- Go `w.Header().Del(key)`. -/
def ResponseWriter.delHeader (w : ResponseWriter) (key : Str) : ResponseWriter :=
  { w with header := Header.Del w.header key }

/-- Go `ResponseWriter.WriteHeader(code)`: the first call fixes the status code
and the headers sent; a later call is superfluous and changes nothing. -/
def ResponseWriter.WriteHeader (w : ResponseWriter) (code : Nat) : ResponseWriter :=
  if w.wroteHeader then w
  else { w with wroteHeader := true, Code := code, sentHeader := w.header }

/-- Go `ResponseWriter.Write(data)`: writes the status line with code 200 when
none was written, then the data; the flag tells whether an error is returned. -/
def ResponseWriter.Write (w : ResponseWriter) (data : Text) : ResponseWriter × Bool :=
  let w := if w.wroteHeader then w else w.WriteHeader 200
  match w.pending with
  | [] => ({ w with Body := w.Body ++ data }, false)
  | .ok :: rest => ({ w with Body := w.Body ++ data, pending := rest }, false)
  | .err n :: rest => ({ w with Body := w.Body ++ data.take n, pending := rest }, true)

/-- Go `json.NewEncoder(w).Encode(v)` for a value whose marshalling is `json`
(marshalling a struct of strings cannot fail): one `Write` of the JSON text and
a newline, whose error is the error returned. -/
def Encode (w : ResponseWriter) (json : Text) : ResponseWriter × Bool :=
  w.Write (json ++ ['\n'])

def contentType : Str := str "Content-Type"
def applicationJSON : Str := str "application/json"

/-- Go `http.Error(w, error, code)`. -/
def httpError (w : ResponseWriter) (error : Text) (code : Nat) : ResponseWriter :=
  let w := w.delHeader (str "Content-Length")
  let w := w.setHeader contentType (str "text/plain; charset=utf-8")
  let w := w.setHeader (str "X-Content-Type-Options") (str "nosniff")
  let w := w.WriteHeader code
  (w.Write (error ++ ['\n'])).1

def StatusOK : Nat := 200
def StatusInternalServerError : Nat := 500

/-! ## The handlers -/

/-- The function `handleRoot` of `main.go`, with the reading of the clock
(`time.Now()`) as an argument; the result is the writer afterwards and the
lines logged. -/
def handleRoot (w : ResponseWriter) (r : Request) (now : Time) : ResponseWriter × List Str :=
  let timestamp := ofText (FormatRFC3339Nano now)
  let clientIP := getClientIP r
  let response : TimeResponse := { Timestamp := timestamp, IP := clientIP }
  let w := w.setHeader contentType applicationJSON
  let w := w.WriteHeader StatusOK
  let (w, err) := Encode w response.marshal
  if err then
    (httpError w "Internal server error".toList StatusInternalServerError,
      [str "Error encoding response"])
  else
    (w, [str "Request from " ++ clientIP ++ str " - "
      ++ Header.Get r.Header (str "User-Agent")])

/-- The function `handleHealth` of `main.go`. -/
def handleHealth (w : ResponseWriter) (_r : Request) : ResponseWriter × List Str :=
  let response : HealthResponse := { Status := str "healthy" }
  let w := w.setHeader contentType applicationJSON
  let w := w.WriteHeader StatusOK
  let (w, err) := Encode w response.marshal
  if err then
    (httpError w "Internal server error".toList StatusInternalServerError,
      [str "Error encoding health response"])
  else (w, [])

/-- The writer of a handler just before the encoding (lines 69-70 and 89-90). -/
def prepared (w : ResponseWriter) : ResponseWriter :=
  (w.setHeader contentType applicationJSON).WriteHeader StatusOK

/-- The instant 2025-11-02T00:00:00.123456Z. -/
def exampleInstant : Time := { sec := 1762041600, nsec := 123456000 }

/-- The instant 10000-01-01T00:00:00Z, one second after the end of year 9999. -/
def year10000 : Time := { sec := 253402300800, nsec := 0 }

/-- The instant -0001-12-31T23:59:59Z, one second before the start of year 0. -/
def yearMinus1 : Time := { sec := -62167219201, nsec := 0 }

/-- An environment that sets `PORT`. -/
def examplePortEnv : Env := [(portVar, str "3000")]

/-- A request with a forwarded chain, a real-IP header and a peer address,
built as the test builds it, with `Header.Set`. -/
def exampleForwarded : Request :=
  { Header := Header.Set (Header.Set [] xRealIP (str "198.51.100.23")) xForwardedFor
      (str "203.0.113.42, 198.51.100.23, 192.0.2.1"),
    RemoteAddr := str "10.0.0.1:12345" }

/-- A request with only `X-Real-IP`, as `net/http` delivers it: the key of the
map is the canonical `X-Real-Ip`. -/
def exampleRealIP : Request :=
  { Header := [(str "X-Real-Ip", [str "198.51.100.23"])],
    RemoteAddr := str "192.0.2.1:12345" }

/-- A request whose header map was filled without `Header.Set`, under the key
`X-Real-IP` as written: `Header.Get` reads the canonical key and finds nothing. -/
def exampleRawKey : Request :=
  { Header := [(str "X-Real-IP", [str "198.51.100.23"])],
    RemoteAddr := str "192.0.2.1:12345" }

/-- A request without IP headers. -/
def exampleDirect : Request :=
  { Header := [], RemoteAddr := str "192.0.2.1:12345" }

/-- A request whose `X-Forwarded-For` starts with a comma. -/
def exampleEmptyFirst : Request :=
  { Header := [(xForwardedFor, [str ", 198.51.100.23"])],
    RemoteAddr := str "192.0.2.1:12345" }

/-- A request whose `X-Forwarded-For` value is the single byte `0xFF`, which
is not valid UTF-8. -/
def exampleInvalidUTF8 : Request :=
  { Header := [(xForwardedFor, [[Rune.invalid 0xFF]])],
    RemoteAddr := str "192.0.2.1:12345" }

/-! ## Lemmas on the string functions -/

theorem Split_eq_cons (s : Str) (sep : Char) :
    ∃ rest, Split s sep = beforeFirst s sep :: rest := by
  induction s with
  | nil => exact ⟨[], rfl⟩
  | cons c cs ih =>
    obtain ⟨rest, hrest⟩ := ih
    by_cases hc : c = sep
    · exact ⟨Split cs sep, by simp [Split, beforeFirst, hc]⟩
    · exact ⟨rest, by simp [Split, beforeFirst, hc, hrest]⟩

theorem Split_length_pos (s : Str) (sep : Char) : 0 < (Split s sep).length := by
  obtain ⟨rest, h⟩ := Split_eq_cons s sep
  simp [h]

theorem forwardedBranch_eq (r : Request) (h : Header.Get r.Header xForwardedFor ≠ []) :
    forwardedBranch r
      = some (TrimSpace (beforeFirst (Header.Get r.Header xForwardedFor) ',')) := by
  obtain ⟨rest, hrest⟩ := Split_eq_cons (Header.Get r.Header xForwardedFor) ','
  simp only [forwardedBranch, h, ne_eq, not_false_eq_true, if_true]
  simp [hrest]

theorem forwardedBranch_none (r : Request) (h : Header.Get r.Header xForwardedFor = []) :
    forwardedBranch r = none := by
  simp [forwardedBranch, h]

theorem beforeFirst_spec (s : Str) (sep : Char) :
    Rune.char sep ∉ beforeFirst s sep ∧
      (s = beforeFirst s sep ∨ ∃ tl, s = beforeFirst s sep ++ Rune.char sep :: tl) := by
  induction s with
  | nil => simp [beforeFirst]
  | cons c cs ih =>
    by_cases hc : c = sep
    · subst hc
      simp [beforeFirst]
    · obtain ⟨h1, h2⟩ := ih
      refine ⟨?_, ?_⟩
      · simp [beforeFirst, hc, h1, Ne.symm hc]
      · rcases h2 with h2 | ⟨tl, h2⟩
        · left
          simp only [beforeFirst, hc, if_false]
          rw [← h2]
        · right
          refine ⟨tl, ?_⟩
          simp only [beforeFirst, hc, if_false, List.cons_append]
          rw [← h2]

/-- Leading spaces are all that `TrimLeftSpace` removes. -/
theorem TrimLeftSpace_spec (s : Str) :
    ∃ pre, (∀ c ∈ pre, isSpace c = true) ∧ s = pre ++ TrimLeftSpace s ∧
      ∀ c, (TrimLeftSpace s).head? = some c → isSpace c = false := by
  refine ⟨s.takeWhile isSpace, ?_, ?_, ?_⟩
  · intro c hc
    exact List.mem_takeWhile_imp hc
  · simp [TrimLeftSpace]
  · intro c hc
    have := List.head?_dropWhile_not isSpace s
    simp only [TrimLeftSpace] at hc
    rw [hc] at this
    simpa using this

theorem TrimRightSpace_spec (s : Str) :
    ∃ post, (∀ c ∈ post, isSpace c = true) ∧ s = TrimRightSpace s ++ post ∧
      ∀ c, (TrimRightSpace s).getLast? = some c → isSpace c = false := by
  refine ⟨(s.reverse.takeWhile isSpace).reverse, ?_, ?_, ?_⟩
  · intro c hc
    exact List.mem_takeWhile_imp (List.mem_reverse.mp hc)
  · simp only [TrimRightSpace]
    rw [← List.reverse_append, List.takeWhile_append_dropWhile, List.reverse_reverse]
  · intro c hc
    have := List.head?_dropWhile_not isSpace s.reverse
    simp only [TrimRightSpace, List.getLast?_reverse] at hc
    rw [hc] at this
    simpa using this

theorem TrimRightSpace_head (s : Str) (c : Rune) (hs : ∀ c, s.head? = some c → isSpace c = false)
    (h : (TrimRightSpace s).head? = some c) : isSpace c = false := by
  obtain ⟨post, _, h2, _⟩ := TrimRightSpace_spec s
  apply hs
  rw [h2]
  cases hT : TrimRightSpace s with
  | nil => simp [hT] at h
  | cons x xs => simpa [hT] using h

/-- What `TrimSpace` removes is a run of spaces at each end, and what it keeps
neither starts nor ends with a space. -/
theorem TrimSpace_spec (s : Str) :
    ∃ pre post, (∀ c ∈ pre, isSpace c = true) ∧ (∀ c ∈ post, isSpace c = true) ∧
      s = pre ++ TrimSpace s ++ post ∧
      (∀ c, (TrimSpace s).head? = some c → isSpace c = false) ∧
      (∀ c, (TrimSpace s).getLast? = some c → isSpace c = false) := by
  obtain ⟨pre, hpre, hl, hhead⟩ := TrimLeftSpace_spec s
  obtain ⟨post, hpost, hr, hlast⟩ := TrimRightSpace_spec (TrimLeftSpace s)
  refine ⟨pre, post, hpre, hpost, ?_, ?_, hlast⟩
  · simp only [TrimSpace, List.append_assoc]
    rw [← hr, ← hl]
  · intro c hc
    exact TrimRightSpace_head _ c hhead hc

theorem TrimSpace_subset (s : Str) (c : Rune) (h : c ∈ TrimSpace s) : c ∈ s := by
  obtain ⟨pre, post, _, _, hs, _⟩ := TrimSpace_spec s
  rw [hs]
  simp [h]

theorem LastIndex_none_iff (s : Str) (c : Char) : LastIndex s c = none ↔ Rune.char c ∉ s := by
  induction s with
  | nil => simp [LastIndex]
  | cons x xs ih =>
    cases hl : LastIndex xs c with
    | none =>
      have hx : Rune.char c ∉ xs := ih.mp hl
      by_cases hxc : x = c
      · simp [LastIndex, hl, hxc]
      · simp [LastIndex, hl, hxc, hx, Ne.symm hxc]
    | some i =>
      have hx : ¬ Rune.char c ∉ xs := fun h => by simp [ih.mpr h] at hl
      simp only [not_not] at hx
      simp [LastIndex, hl, hx]

theorem LastIndex_some (s : Str) (c : Char) (i : Nat) (h : LastIndex s c = some i) :
    ∃ suffix, Rune.char c ∉ suffix ∧ s = s.take i ++ Rune.char c :: suffix := by
  induction s generalizing i with
  | nil => simp [LastIndex] at h
  | cons x xs ih =>
    cases hl : LastIndex xs c with
    | none =>
      have hx : Rune.char c ∉ xs := (LastIndex_none_iff xs c).mp hl
      by_cases hxc : x = c
      · simp only [LastIndex, hl, hxc, if_true, Option.some.injEq] at h
        subst h
        exact ⟨xs, hx, by simp [hxc]⟩
      · simp [LastIndex, hl, hxc] at h
    | some k =>
      simp only [LastIndex, hl, Option.some.injEq] at h
      subst h
      obtain ⟨suffix, h1, h2⟩ := ih k hl
      refine ⟨suffix, h1, ?_⟩
      simp only [List.take_succ_cons, List.cons_append]
      rw [← h2]

theorem LastIndex_append (h p : Str) (c : Char) (hp : Rune.char c ∉ p) :
    LastIndex (h ++ Rune.char c :: p) c = some h.length := by
  induction h with
  | nil => simp [LastIndex, (LastIndex_none_iff p c).mpr hp]
  | cons x xs ih => simp [LastIndex, ih]

theorem stripPort_append (h p : Str) (hp : Rune.char ':' ∉ p) :
    stripPort (h ++ Rune.char ':' :: p) = h := by
  simp [stripPort, LastIndex_append h p ':' hp]

theorem stripPort_spec (addr : Str) :
    (Rune.char ':' ∈ addr →
        ∃ port, Rune.char ':' ∉ port ∧ addr = stripPort addr ++ Rune.char ':' :: port) ∧
      (Rune.char ':' ∉ addr → stripPort addr = addr) := by
  constructor
  · intro hmem
    cases hl : LastIndex addr ':' with
    | none => exact absurd hmem ((LastIndex_none_iff addr ':').mp hl)
    | some i =>
      obtain ⟨suffix, h1, h2⟩ := LastIndex_some addr ':' i hl
      exact ⟨suffix, h1, by simpa [stripPort, hl] using h2⟩
  · intro hmem
    simp [stripPort, (LastIndex_none_iff addr ':').mpr hmem]

theorem getClientIP_of_forwarded (r : Request) (h : Header.Get r.Header xForwardedFor ≠ []) :
    getClientIP r = TrimSpace (beforeFirst (Header.Get r.Header xForwardedFor) ',') := by
  simp [getClientIP, forwardedBranch_eq r h]

theorem getClientIP_of_not_forwarded (r : Request)
    (h : Header.Get r.Header xForwardedFor = []) :
    getClientIP r =
      if Header.Get r.Header xRealIP ≠ [] then Header.Get r.Header xRealIP
      else stripPort r.RemoteAddr := by
  simp [getClientIP, forwardedBranch_none r h]

/-- When `getClientIP` returns the empty string: a non-empty `X-Forwarded-For`
whose first element is blank, or no header at all and a peer address with
nothing before its last colon. -/
theorem getClientIP_eq_nil_iff (r : Request) :
    getClientIP r = [] ↔
      (Header.Get r.Header xForwardedFor ≠ [] ∧
        TrimSpace (beforeFirst (Header.Get r.Header xForwardedFor) ',') = []) ∨
      (Header.Get r.Header xForwardedFor = [] ∧ Header.Get r.Header xRealIP = [] ∧
        stripPort r.RemoteAddr = []) := by
  by_cases hf : Header.Get r.Header xForwardedFor = []
  · rw [getClientIP_of_not_forwarded r hf]
    by_cases hr : Header.Get r.Header xRealIP = []
    · simp [hf, hr]
    · simp [hf, hr]
  · rw [getClientIP_of_forwarded r hf]
    simp [hf]

/-- The keys `getClientIP` reads: `Header.Get` looks `X-Real-IP` up under the
canonical key `X-Real-Ip`, and `X-Forwarded-For` is its own canonical form. -/
theorem canonical_keys :
    CanonicalMIMEHeaderKey xRealIP = str "X-Real-Ip" ∧
    CanonicalMIMEHeaderKey xForwardedFor = str "X-Forwarded-For" := by
  decide

/-! ## Client-IP resolution: the claims -/

/-- C1: when `X-Forwarded-For` is non-empty, `getClientIP` returns the text of
the header before its first comma (all of it when there is no comma) with the
surrounding whitespace trimmed, and the result depends on nothing else in the
request: neither `X-Real-IP` nor the peer address. -/
theorem getClientIP_forwarded_wins (r : Request)
    (h : Header.Get r.Header xForwardedFor ≠ []) :
    getClientIP r = TrimSpace (beforeFirst (Header.Get r.Header xForwardedFor) ',') ∧
    (Rune.char ',' ∉ beforeFirst (Header.Get r.Header xForwardedFor) ',' ∧
      (Header.Get r.Header xForwardedFor = beforeFirst (Header.Get r.Header xForwardedFor) ',' ∨
        ∃ tl, Header.Get r.Header xForwardedFor
          = beforeFirst (Header.Get r.Header xForwardedFor) ',' ++ Rune.char ',' :: tl)) ∧
    (∃ pre post, (∀ c ∈ pre, isSpace c = true) ∧ (∀ c ∈ post, isSpace c = true) ∧
      beforeFirst (Header.Get r.Header xForwardedFor) ',' = pre ++ getClientIP r ++ post ∧
      (∀ c, (getClientIP r).head? = some c → isSpace c = false) ∧
      (∀ c, (getClientIP r).getLast? = some c → isSpace c = false)) ∧
    (∀ r2 : Request, Header.Get r2.Header xForwardedFor = Header.Get r.Header xForwardedFor →
      getClientIP r2 = getClientIP r) := by
  refine ⟨getClientIP_of_forwarded r h, beforeFirst_spec _ _, ?_, ?_⟩
  · rw [getClientIP_of_forwarded r h]
    exact TrimSpace_spec _
  · intro r2 h2
    rw [getClientIP_of_forwarded r h, getClientIP_of_forwarded r2 (h2 ▸ h), h2]

theorem getClientIP_forwarded_wins_witness :
    Header.Get exampleForwarded.Header xForwardedFor ≠ [] ∧
    Header.Get exampleForwarded.Header xRealIP ≠ [] ∧
    getClientIP exampleForwarded = str "203.0.113.42" :=
  ⟨by decide, by decide,
    (getClientIP_forwarded_wins exampleForwarded (by decide)).1.trans (by decide)⟩

/-- C2: when `X-Forwarded-For` is absent or empty and `X-Real-IP` is non-empty
(both read as `Header.Get` reads them, under the canonical key), `getClientIP`
returns the `X-Real-IP` value unchanged, whatever the peer address. -/
theorem getClientIP_realIP_verbatim (r : Request)
    (hf : Header.Get r.Header xForwardedFor = [])
    (hr : Header.Get r.Header xRealIP ≠ []) :
    getClientIP r = Header.Get r.Header xRealIP := by
  rw [getClientIP_of_not_forwarded r hf, if_pos hr]

theorem getClientIP_realIP_verbatim_witness :
    Header.Set [] xRealIP (str "198.51.100.23") = exampleRealIP.Header ∧
    Header.Get exampleRealIP.Header xForwardedFor = [] ∧
    Header.Get exampleRealIP.Header xRealIP ≠ [] ∧
    getClientIP exampleRealIP = str "198.51.100.23" :=
  ⟨by decide, by decide, by decide,
    (getClientIP_realIP_verbatim exampleRealIP (by decide) (by decide)).trans (by decide)⟩

/-- C3: with neither header set (no non-empty value under the canonical keys
`X-Forwarded-For` and `X-Real-Ip`), `getClientIP` returns the peer address cut at
its last colon (the address itself when it has no colon); so `h ++ ":" ++ p`
with a colon-free `p` resolves to `h`. -/
theorem getClientIP_peer_strips_port (r : Request)
    (hf : Header.Get r.Header xForwardedFor = [])
    (hr : Header.Get r.Header xRealIP = []) :
    (Rune.char ':' ∈ r.RemoteAddr →
      ∃ port, Rune.char ':' ∉ port ∧ r.RemoteAddr = getClientIP r ++ Rune.char ':' :: port) ∧
    (Rune.char ':' ∉ r.RemoteAddr → getClientIP r = r.RemoteAddr) ∧
    (∀ h p : Str, Rune.char ':' ∉ p → r.RemoteAddr = h ++ Rune.char ':' :: p →
      getClientIP r = h) := by
  have hip : getClientIP r = stripPort r.RemoteAddr := by
    rw [getClientIP_of_not_forwarded r hf]
    simp [hr]
  rw [hip]
  refine ⟨(stripPort_spec _).1, (stripPort_spec _).2, ?_⟩
  intro h p hp haddr
  rw [haddr, stripPort_append h p hp]

theorem getClientIP_peer_strips_port_witness :
    Header.Get exampleDirect.Header xForwardedFor = [] ∧
    Header.Get exampleDirect.Header xRealIP = [] ∧
    getClientIP exampleDirect = str "192.0.2.1" ∧
    Header.Get exampleRawKey.Header xRealIP = [] ∧
    getClientIP exampleRawKey = str "192.0.2.1" :=
  ⟨by decide, by decide,
    (getClientIP_peer_strips_port exampleDirect (by decide) (by decide)).2.2
      (str "192.0.2.1") (str "12345") (by decide) (by decide),
    by decide,
    (getClientIP_peer_strips_port exampleRawKey (by decide) (by decide)).2.2
      (str "192.0.2.1") (str "12345") (by decide) (by decide)⟩

/-- C10: when `X-Forwarded-For` is non-empty the `len(ips) > 0` guard holds, the
branch returns (its value is the value of `getClientIP`), and the value has no
comma and neither starts nor ends with a whitespace character. -/
theorem getClientIP_forwarded_shape (r : Request)
    (h : Header.Get r.Header xForwardedFor ≠ []) :
    0 < (Split (Header.Get r.Header xForwardedFor) ',').length ∧
    forwardedBranch r = some (getClientIP r) ∧
    Rune.char ',' ∉ getClientIP r ∧
    (∀ c, (getClientIP r).head? = some c → isSpace c = false) ∧
    (∀ c, (getClientIP r).getLast? = some c → isSpace c = false) := by
  obtain ⟨_, _, _, _, _, hhead, hlast⟩ :=
    TrimSpace_spec (beforeFirst (Header.Get r.Header xForwardedFor) ',')
  refine ⟨Split_length_pos _ _, ?_, ?_, ?_, ?_⟩
  · rw [getClientIP_of_forwarded r h, forwardedBranch_eq r h]
  · rw [getClientIP_of_forwarded r h]
    intro hmem
    exact (beforeFirst_spec _ ',').1 (TrimSpace_subset _ _ hmem)
  · rw [getClientIP_of_forwarded r h]
    exact hhead
  · rw [getClientIP_of_forwarded r h]
    exact hlast

theorem getClientIP_forwarded_shape_witness :
    Header.Get exampleEmptyFirst.Header xForwardedFor ≠ [] ∧
    Header.Get exampleEmptyFirst.Header xRealIP = [] ∧
    forwardedBranch exampleEmptyFirst = some [] :=
  ⟨by decide, by decide,
    (getClientIP_forwarded_shape exampleEmptyFirst (by decide)).2.1.trans (by decide)⟩

/-- C4 (the code departs from the claim): a request with a peer address and an
`X-Forwarded-For` value whose first element is empty resolves to the empty
string. -/
theorem getClientIP_empty_first_element :
    exampleEmptyFirst.RemoteAddr ≠ [] ∧
    Header.Get exampleEmptyFirst.Header xForwardedFor = str ", 198.51.100.23" ∧
    getClientIP exampleEmptyFirst = [] := by
  decide

/-! ## Configuration and shutdown: the claims -/

theorem configureServer_Addr (env : Env) :
    (Getenv env portVar ≠ [] → (configureServer env).Addr = Rune.char ':' :: Getenv env portVar) ∧
    (Getenv env portVar = [] → (configureServer env).Addr = str ":8080") := by
  constructor
  · intro h
    simp only [configureServer, if_neg h]
    rfl
  · intro h
    simp only [configureServer, h, if_true]
    rfl

/-- C9: the listen address is `":"` followed by `PORT` when the variable is
set to a non-empty value and `":8080"` when it is absent or empty; the read and
write timeouts are 15 seconds and the idle timeout 60 seconds whatever the
environment. -/
theorem main_server_config (env : Env) (first : Event) (o : ServerOutcome) :
    (Getenv env portVar ≠ [] → (main env first o).1.Addr = Rune.char ':' :: Getenv env portVar) ∧
    (env.lookup portVar = none ∨ env.lookup portVar = some [] →
      (main env first o).1.Addr = str ":8080") ∧
    (∀ v, v ≠ [] → env.lookup portVar = some v → (main env first o).1.Addr = Rune.char ':' :: v) ∧
    (main env first o).1.ReadTimeout = 15 * 1000000000 ∧
    (main env first o).1.WriteTimeout = 15 * 1000000000 ∧
    (main env first o).1.IdleTimeout = 60 * 1000000000 := by
  refine ⟨(configureServer_Addr env).1, ?_, ?_, rfl, rfl, rfl⟩
  · intro h
    have hg : Getenv env portVar = [] := by
      rcases h with h | h <;> simp only [Getenv, h]
    exact (configureServer_Addr env).2 hg
  · intro v hv h
    have hg : Getenv env portVar = v := by simp only [Getenv, h]
    have := (configureServer_Addr env).1 (hg ▸ hv)
    rw [hg] at this
    exact this

theorem main_server_config_witness :
    Getenv examplePortEnv portVar ≠ [] ∧
    (main examplePortEnv .shutdownSignal ⟨false, false⟩).1.Addr = str ":3000" ∧
    (main [] .shutdownSignal ⟨false, false⟩).1.Addr = str ":8080" :=
  ⟨by decide,
    ((main_server_config examplePortEnv .shutdownSignal ⟨false, false⟩).1 (by decide)).trans
      (by decide),
    (main_server_config [] .shutdownSignal ⟨false, false⟩).2.1 (Or.inl rfl)⟩

theorem mainSelect_spec (o : ServerOutcome) :
    (mainSelect .serverError o).exitCode ≠ 0 ∧
    (mainSelect .serverError o).calls = [] ∧
    ((mainSelect .shutdownSignal o).exitCode ≠ 0 ↔ (o.shutdownErr = true ∧ o.closeErr = true)) ∧
    (o.shutdownErr = false → (mainSelect .shutdownSignal o).exitCode = 0) ∧
    (o.shutdownErr = true → o.closeErr = false → (mainSelect .shutdownSignal o).exitCode = 0) ∧
    (∀ first, ServerCall.Close ∈ (mainSelect first o).calls ↔
      (first = .shutdownSignal ∧ o.shutdownErr = true)) ∧
    (∀ first, ServerCall.Close ∈ (mainSelect first o).calls →
      (mainSelect first o).calls = [.Shutdown, .Close]) := by
  obtain ⟨s, c⟩ := o
  cases s <;> cases c <;>
    refine ⟨by decide, by decide, by decide, by decide, by decide, ?_, ?_⟩ <;>
    intro first <;> cases first <;> decide

/-- C8: the exit code is non-zero when the listener reports an error first;
after a shutdown signal it is non-zero exactly when `Shutdown` fails and the
forced `Close` fails too, and 0 otherwise; `Close` is called only after a
failed `Shutdown`, and follows it.  The environment plays no part. -/
theorem main_exit_code (env : Env) (o : ServerOutcome) :
    (main env .serverError o).2.exitCode ≠ 0 ∧
    (main env .serverError o).2.calls = [] ∧
    ((main env .shutdownSignal o).2.exitCode ≠ 0 ↔
      (o.shutdownErr = true ∧ o.closeErr = true)) ∧
    (o.shutdownErr = false → (main env .shutdownSignal o).2.exitCode = 0) ∧
    (o.shutdownErr = true → o.closeErr = false →
      (main env .shutdownSignal o).2.exitCode = 0) ∧
    (∀ first, ServerCall.Close ∈ (main env first o).2.calls ↔
      (first = .shutdownSignal ∧ o.shutdownErr = true)) ∧
    (∀ first, ServerCall.Close ∈ (main env first o).2.calls →
      (main env first o).2.calls = [.Shutdown, .Close]) ∧
    (∀ env2 first, (main env2 first o).2 = (main env first o).2) := by
  obtain ⟨h1, h2, h3, h4, h5, h6, h7⟩ := mainSelect_spec o
  exact ⟨h1, h2, h3, h4, h5, h6, h7, fun _ _ => rfl⟩

/-! ## The handlers: lemmas -/

theorem Header_Get_Set (h : Header) (key value : Str) :
    Header.Get (Header.Set h key value) key = value := by
  simp [Header.Get, Header.Set, Header.values, List.lookup]

theorem Write_ok (w : ResponseWriter) (data : Text) (hw : w.wroteHeader = true)
    (hok : ∀ n, w.pending.head? ≠ some (WriteResult.err n)) :
    (w.Write data).2 = false ∧ (w.Write data).1.Code = w.Code ∧
      (w.Write data).1.sentHeader = w.sentHeader ∧ (w.Write data).1.header = w.header ∧
      (w.Write data).1.Body = w.Body ++ data := by
  obtain ⟨header, wrote, code, sent, body, pending⟩ := w
  simp only at hw hok
  subst hw
  cases pending with
  | nil => simp [ResponseWriter.Write]
  | cons p rest =>
    cases p with
    | ok => simp [ResponseWriter.Write]
    | err n => exact absurd rfl (hok n)

theorem Write_err (w : ResponseWriter) (data : Text) (n : Nat) (rest : List WriteResult)
    (hw : w.wroteHeader = true) (hp : w.pending = .err n :: rest) :
    (w.Write data).2 = true ∧ (w.Write data).1.Code = w.Code ∧
      (w.Write data).1.sentHeader = w.sentHeader ∧ (w.Write data).1.wroteHeader = true ∧
      (w.Write data).1.Body = w.Body ++ data.take n := by
  obtain ⟨header, wrote, code, sent, body, pending⟩ := w
  simp only at hw hp
  subst hw hp
  simp [ResponseWriter.Write]

theorem Write_keeps (w : ResponseWriter) (data : Text) (hw : w.wroteHeader = true) :
    (w.Write data).1.Code = w.Code ∧ (w.Write data).1.sentHeader = w.sentHeader := by
  obtain ⟨header, wrote, code, sent, body, pending⟩ := w
  simp only at hw
  subst hw
  cases pending with
  | nil => simp [ResponseWriter.Write]
  | cons p rest => cases p <;> simp [ResponseWriter.Write]

theorem httpError_keeps (w : ResponseWriter) (error : Text) (code : Nat)
    (hw : w.wroteHeader = true) :
    (httpError w error code).Code = w.Code ∧ (httpError w error code).sentHeader = w.sentHeader := by
  have h := Write_keeps
    (((w.delHeader (str "Content-Length")).setHeader contentType
      (str "text/plain; charset=utf-8")).setHeader (str "X-Content-Type-Options")
      (str "nosniff")) (error ++ ['\n']) hw
  simpa [httpError, ResponseWriter.WriteHeader, ResponseWriter.setHeader,
    ResponseWriter.delHeader, hw] using h

theorem prepared_spec (w : ResponseWriter) (hw : w.wroteHeader = false) :
    (prepared w).wroteHeader = true ∧ (prepared w).Code = 200 ∧
      Header.Get (prepared w).sentHeader contentType = applicationJSON ∧
      Header.Get (prepared w).header contentType = applicationJSON ∧
      (prepared w).Body = w.Body ∧ (prepared w).pending = w.pending := by
  simp [prepared, ResponseWriter.WriteHeader, ResponseWriter.setHeader, hw, StatusOK,
    Header_Get_Set]

theorem handleRoot_eq (w : ResponseWriter) (r : Request) (now : Time) :
    handleRoot w r now =
      if (Encode (prepared w) (TimeResponse.marshal
          { Timestamp := ofText (FormatRFC3339Nano now), IP := getClientIP r })).2 then
        (httpError (Encode (prepared w) (TimeResponse.marshal
          { Timestamp := ofText (FormatRFC3339Nano now), IP := getClientIP r })).1
          "Internal server error".toList StatusInternalServerError,
          [str "Error encoding response"])
      else
        ((Encode (prepared w) (TimeResponse.marshal
          { Timestamp := ofText (FormatRFC3339Nano now), IP := getClientIP r })).1,
          [str "Request from " ++ getClientIP r ++ str " - "
            ++ Header.Get r.Header (str "User-Agent")]) := rfl

theorem handleHealth_eq (w : ResponseWriter) (r : Request) :
    handleHealth w r =
      if (Encode (prepared w) (HealthResponse.marshal { Status := str "healthy" })).2 then
        (httpError (Encode (prepared w) (HealthResponse.marshal
          { Status := str "healthy" })).1
          "Internal server error".toList StatusInternalServerError,
          [str "Error encoding health response"])
      else
        ((Encode (prepared w) (HealthResponse.marshal { Status := str "healthy" })).1,
          []) := rfl

theorem handleRoot_success (w : ResponseWriter) (r : Request) (now : Time)
    (hw : w.wroteHeader = false) (hok : ∀ n, w.pending.head? ≠ some (WriteResult.err n)) :
    (handleRoot w r now).1.Code = 200 ∧
      Header.Get (handleRoot w r now).1.sentHeader contentType = applicationJSON ∧
      Header.Get (handleRoot w r now).1.header contentType = applicationJSON ∧
      (handleRoot w r now).1.Body = w.Body ++
        (TimeResponse.marshal
          { Timestamp := ofText (FormatRFC3339Nano now), IP := getClientIP r } ++ ['\n']) := by
  obtain ⟨hp1, hp2, hp3, hp4, hp5, hp6⟩ := prepared_spec w hw
  have hok2 : ∀ n, (prepared w).pending.head? ≠ some (WriteResult.err n) := by
    rw [hp6]
    exact hok
  obtain ⟨h1, h2, h3, h4, h5⟩ := Write_ok (prepared w)
    (TimeResponse.marshal { Timestamp := ofText (FormatRFC3339Nano now), IP := getClientIP r }
      ++ ['\n']) hp1 hok2
  rw [handleRoot_eq]
  simp only [Encode, h1, Bool.false_eq_true, if_false, h2, h3, h4, h5, hp2, hp3, hp4, hp5,
    and_self]

theorem handleHealth_success (w : ResponseWriter) (r : Request)
    (hw : w.wroteHeader = false) (hok : ∀ n, w.pending.head? ≠ some (WriteResult.err n)) :
    (handleHealth w r).1.Code = 200 ∧
      Header.Get (handleHealth w r).1.sentHeader contentType = applicationJSON ∧
      Header.Get (handleHealth w r).1.header contentType = applicationJSON ∧
      (handleHealth w r).1.Body = w.Body ++ "\x7b\"status\":\"healthy\"\x7d\n".toList := by
  obtain ⟨hp1, hp2, hp3, hp4, hp5, hp6⟩ := prepared_spec w hw
  have hok2 : ∀ n, (prepared w).pending.head? ≠ some (WriteResult.err n) := by
    rw [hp6]
    exact hok
  obtain ⟨h1, h2, h3, h4, h5⟩ := Write_ok (prepared w)
    (HealthResponse.marshal { Status := str "healthy" } ++ ['\n']) hp1 hok2
  have hbody : HealthResponse.marshal { Status := str "healthy" } ++ ['\n']
      = "\x7b\"status\":\"healthy\"\x7d\n".toList := by decide
  refine ⟨?_, ?_, ?_, ?_⟩
  · rw [handleHealth_eq]
    simp only [Encode, h1, Bool.false_eq_true, if_false, h2, hp2]
  · rw [handleHealth_eq]
    simp only [Encode, h1, Bool.false_eq_true, if_false, h3, hp3]
  · rw [handleHealth_eq]
    simp only [Encode, h1, Bool.false_eq_true, if_false, h4, hp4]
  · rw [hbody] at h1 h5
    rw [handleHealth_eq]
    simp only [Encode, hbody, h1, Bool.false_eq_true, if_false, h5, hp5]

/-! ## Reading back what the encoder writes -/

theorem hexVal_hexChar (n : Nat) (h : n < 16) : hexVal (hexChar n) = some n := by
  interval_cases n <;> rfl

theorem readString_raw (c : Char) (rest : Text) (h1 : c ≠ '"') (h2 : c ≠ '\\')
    (h3 : 0x20 ≤ c.toNat) : readString (c :: rest) = prependChar c (readString rest) := by
  have h4 : ¬ c.toNat < 0x20 := by omega
  rw [readString.eq_def]
  simp only [h1, h2, h4, if_false]

theorem readString_simple (e v : Char) (rest : Text) (he : e ≠ 'u')
    (hs : simpleEscape e = some v) :
    readString ('\\' :: e :: rest) = prependChar v (readString rest) := by
  have h1 : ('\\' : Char) ≠ '"' := by decide
  rw [readString.eq_def]
  simp only [h1, he, hs, if_false, if_true]

theorem readString_u (a b x d v : Char) (rest : Text) (h : readEscape4 a b x d = some v) :
    readString ('\\' :: 'u' :: a :: b :: x :: d :: rest) = prependChar v (readString rest) := by
  have h1 : ('\\' : Char) ≠ '"' := by decide
  rw [readString.eq_def]
  simp only [h1, h, if_false, if_true]

theorem readEscape4_of (a b x d : Char) (p q r t : Nat) (ha : hexVal a = some p)
    (hb : hexVal b = some q) (hx : hexVal x = some r) (hd : hexVal d = some t)
    (c : Char) (hc : ((p * 16 + q) * 16 + r) * 16 + t = c.toNat) :
    readEscape4 a b x d = some c := by
  have hs : ¬ (0xD800 ≤ c.toNat ∧ c.toNat ≤ 0xDFFF) := by
    have hv := c.valid
    intro h
    rcases hv with hv | hv
    · have : c.toNat < 0xD800 := hv
      omega
    · have : 0xDFFF < c.toNat := hv.1
      omega
  simp only [readEscape4, ha, hb, hx, hd, hc, hs, if_false, Char.ofNat_toNat]

theorem char_eq_of_toNat (c : Char) (n : Nat) (h : c.toNat = n) : Char.ofNat n = c := by
  rw [← h]
  exact Char.ofNat_toNat c

theorem readString_escapeChar (c : Char) (rest : Text) :
    readString (escapeChar c ++ rest) = prependChar c (readString rest) := by
  unfold escapeChar
  simp only []
  by_cases hb : c.toNat < 0x80
  · rw [if_pos hb]
    by_cases hs : htmlSafe c = true
    · rw [if_pos hs]
      simp only [htmlSafe, Bool.and_eq_true, decide_eq_true_eq, bne_iff_ne, ne_eq] at hs
      exact readString_raw c rest hs.1.1.1.1.2 hs.2 hs.1.1.1.1.1.1
    · rw [if_neg hs]
      by_cases hq : c = '\\' ∨ c = '"'
      · rw [if_pos hq]
        rcases hq with hq | hq
        · subst hq
          exact readString_simple '\\' '\\' rest (by decide) rfl
        · subst hq
          exact readString_simple '"' '"' rest (by decide) rfl
      · rw [if_neg hq]
        by_cases h8 : c.toNat = 0x08
        · rw [if_pos h8, ← char_eq_of_toNat c _ h8]
          exact readString_simple 'b' _ rest (by decide) rfl
        · rw [if_neg h8]
          by_cases hC : c.toNat = 0x0C
          · rw [if_pos hC, ← char_eq_of_toNat c _ hC]
            exact readString_simple 'f' _ rest (by decide) rfl
          · rw [if_neg hC]
            by_cases hA : c.toNat = 0x0A
            · rw [if_pos hA, ← char_eq_of_toNat c _ hA]
              exact readString_simple 'n' _ rest (by decide) rfl
            · rw [if_neg hA]
              by_cases hD : c.toNat = 0x0D
              · rw [if_pos hD, ← char_eq_of_toNat c _ hD]
                exact readString_simple 'r' _ rest (by decide) rfl
              · rw [if_neg hD]
                by_cases h9 : c.toNat = 0x09
                · rw [if_pos h9, ← char_eq_of_toNat c _ h9]
                  exact readString_simple 't' _ rest (by decide) rfl
                · rw [if_neg h9]
                  exact readString_u '0' '0' _ _ c rest
                    (readEscape4_of '0' '0' _ _ 0 0 (c.toNat / 16) (c.toNat % 16) rfl rfl
                      (hexVal_hexChar _ (by omega)) (hexVal_hexChar _ (by omega)) c (by omega))
  · rw [if_neg hb]
    by_cases hl : c.toNat = 0x2028 ∨ c.toNat = 0x2029
    · rw [if_pos hl]
      exact readString_u '2' '0' '2' _ c rest
        (readEscape4_of '2' '0' '2' _ 2 0 2 (c.toNat % 16) rfl rfl rfl
          (hexVal_hexChar _ (by omega)) c (by omega))
    · rw [if_neg hl]
      have h1 : c ≠ '"' := by
        intro h
        rw [h] at hb
        exact hb (by decide)
      have h2 : c ≠ '\\' := by
        intro h
        rw [h] at hb
        exact hb (by decide)
      exact readString_raw c rest h1 h2 (by omega)

theorem readString_escapeRune (u : Rune) (rest : Text) :
    readString (escapeRune u ++ rest) = prependChar (replaceInvalidUTF8 [u]).head! (readString rest) := by
  cases u with
  | char c => exact readString_escapeChar c rest
  | invalid b => exact readString_u 'f' 'f' 'f' 'd' replacementChar rest (by decide)

/-- What a JSON reader gets from the string the encoder writes for `s`: the
text of `s`, with `U+FFFD` for each byte that is not valid UTF-8. -/
theorem readString_escapeString (s : Str) (rest : Text) :
    readString (escapeString s ++ '"' :: rest) = some (replaceInvalidUTF8 s, rest) := by
  induction s with
  | nil =>
    rw [readString.eq_def]
    simp only [escapeString, List.nil_append, if_true, replaceInvalidUTF8]
  | cons u us ih =>
    rw [escapeString, List.append_assoc, readString_escapeRune, ih]
    cases u <;> rfl

theorem replaceInvalidUTF8_ofText (t : Text) : replaceInvalidUTF8 (ofText t) = t := by
  induction t with
  | nil => rfl
  | cons c cs ih =>
    show c :: replaceInvalidUTF8 (ofText cs) = c :: cs
    rw [ih]

theorem ofText_replaceInvalidUTF8 (s : Str) (h : ∀ u ∈ s, ∃ c, u = Rune.char c) :
    ofText (replaceInvalidUTF8 s) = s := by
  induction s with
  | nil => rfl
  | cons u us ih =>
    obtain ⟨c, hc⟩ := h u (List.mem_cons_self _ _)
    subst hc
    show Rune.char c :: ofText (replaceInvalidUTF8 us) = Rune.char c :: us
    rw [ih (fun v hv => h v (List.mem_cons_of_mem _ hv))]

theorem skipSpace_cons (c : Char) (rest : Text) (h : isJSONSpace c = false) :
    skipSpace (c :: rest) = c :: rest := by
  simp only [skipSpace, List.dropWhile_cons, h, Bool.false_eq_true, if_false]

/-- The reading of a member that is followed by another one. -/
theorem readMembers_more (fuel : Nat) (k v : Str) (rest : Text) :
    readMembers (fuel + 1) ('"' :: (escapeString k ++ '"' :: ':' :: '"' ::
        (escapeString v ++ '"' :: ',' :: '"' :: rest)))
      = match readMembers fuel ('"' :: rest) with
        | some members => some ((replaceInvalidUTF8 k, replaceInvalidUTF8 v) :: members)
        | none => none := by
  have c1 : ∀ t : Text, skipSpace (':' :: t) = ':' :: t := fun t => skipSpace_cons _ t rfl
  have c2 : ∀ t : Text, skipSpace ('"' :: t) = '"' :: t := fun t => skipSpace_cons _ t rfl
  have c3 : ∀ t : Text, skipSpace (',' :: t) = ',' :: t := fun t => skipSpace_cons _ t rfl
  rw [readMembers]
  simp only [readString_escapeString, c1, c2, c3]

/-- The reading of the last member, up to the closing brace and the newline
of the encoder. -/
theorem readMembers_last (fuel : Nat) (k v : Str) :
    readMembers (fuel + 1) ('"' :: (escapeString k ++ '"' :: ':' :: '"' ::
        (escapeString v ++ '"' :: ['\x7d', '\n'])))
      = some [(replaceInvalidUTF8 k, replaceInvalidUTF8 v)] := by
  have c1 : ∀ t : Text, skipSpace (':' :: t) = ':' :: t := fun t => skipSpace_cons _ t rfl
  have c2 : ∀ t : Text, skipSpace ('"' :: t) = '"' :: t := fun t => skipSpace_cons _ t rfl
  have c3 : ∀ t : Text, skipSpace ('\x7d' :: t) = '\x7d' :: t := fun t => skipSpace_cons _ t rfl
  have c4 : skipSpace ['\n'] = [] := rfl
  rw [readMembers]
  simp only [readString_escapeString, c1, c2, c3, c4, if_true]

/-- The members a JSON reader finds in the body the handler of the root
endpoint writes. -/
theorem readObject_marshal (v : TimeResponse) :
    readObject (TimeResponse.marshal v ++ ['\n'])
      = some [("timestamp".toList, replaceInvalidUTF8 v.Timestamp),
          ("ip".toList, replaceInvalidUTF8 v.IP)] := by
  have h1 : "\x7b\"timestamp\":".toList
      = '\x7b' :: '"' :: (escapeString (str "timestamp") ++ ['"', ':']) := by decide
  have h2 : ",\"ip\":".toList = ',' :: '"' :: (escapeString (str "ip") ++ ['"', ':']) := by
    decide
  have k1 : replaceInvalidUTF8 (str "timestamp") = "timestamp".toList := by decide
  have k2 : replaceInvalidUTF8 (str "ip") = "ip".toList := by decide
  have shape : TimeResponse.marshal v ++ ['\n']
      = '\x7b' :: '"' :: (escapeString (str "timestamp") ++ '"' :: ':' :: '"' ::
          (escapeString v.Timestamp ++ '"' :: ',' :: '"' :: (escapeString (str "ip") ++
            '"' :: ':' :: '"' :: (escapeString v.IP ++ '"' :: ['\x7d', '\n'])))) := by
    unfold TimeResponse.marshal appendString
    rw [h1, h2]
    simp only [List.append_assoc, List.cons_append, List.nil_append]
  have c1 : ∀ t : Text, skipSpace ('\x7b' :: t) = '\x7b' :: t := fun t => skipSpace_cons _ t rfl
  have c2 : ∀ t : Text, skipSpace ('"' :: t) = '"' :: t := fun t => skipSpace_cons _ t rfl
  rw [shape]
  unfold readObject
  simp only [c1, c2, List.length_cons]
  rw [readMembers_more, readMembers_last, k1, k2]

/-- The fields a JSON reader finds in the body the handler of the root endpoint
writes: the text of each field of the record, with `U+FFFD` for each byte that
is not valid UTF-8. -/
theorem jsonField_marshal (v : TimeResponse) :
    jsonField "timestamp" (TimeResponse.marshal v ++ ['\n']) = some (replaceInvalidUTF8 v.Timestamp) ∧
    jsonField "ip" (TimeResponse.marshal v ++ ['\n']) = some (replaceInvalidUTF8 v.IP) := by
  have n1 : ("ip".toList == "timestamp".toList) = false := by decide
  have n2 : ("timestamp".toList == "timestamp".toList) = true := by decide
  have n3 : ("ip".toList == "ip".toList) = true := by decide
  simp only [jsonField, readObject_marshal, List.lookup, n1, n2, n3]
  exact ⟨trivial, trivial⟩

/-! ## The handlers: the claims -/

/-- C6 (as stated, it fails): for a request whose `X-Forwarded-For` value is the
byte `0xFF`, which `net/http` accepts in a header value, the handler answers
200 and `getClientIP` is that byte, but the `ip` field of the body is the code
point `U+FFFD`: the encoder replaces a byte that is not valid UTF-8. -/
theorem ip_field_invalid_utf8 :
    getClientIP exampleInvalidUTF8 = [Rune.invalid 0xFF] ∧
    (handleRoot (NewRecorder []) exampleInvalidUTF8 exampleInstant).1.Code = 200 ∧
    (handleRoot (NewRecorder []) exampleInvalidUTF8 exampleInstant).1.Body
      = ("\x7b\"timestamp\":\"2025-11-02T00:00:00.123456Z\",\"ip\":\"\\ufffd\"\x7d"
          ++ "\n").toList ∧
    jsonField "ip" (handleRoot (NewRecorder []) exampleInvalidUTF8 exampleInstant).1.Body
      = some [replacementChar] ∧
    (jsonField "ip"
      (handleRoot (NewRecorder []) exampleInvalidUTF8 exampleInstant).1.Body).map ofText
      ≠ some (getClientIP exampleInvalidUTF8) := by
  decide

/-- C6 (amended): on a fresh writer whose write succeeds, for every request,
both handlers end with status 200 and `Content-Type: application/json` (in the
header map and in the headers sent).  The root body is what the encoder writes
for the record; read as JSON, its `ip` field is `getClientIP` of the request
with `U+FFFD` for each byte that is not valid UTF-8, so it equals `getClientIP`
of the request whenever that is valid UTF-8, and its `timestamp` field is the
formatted clock reading.  The health body is the JSON object with `status`
`healthy`, the same for every request. -/
theorem handlers_success (w : ResponseWriter) (r : Request) (now : Time)
    (hw : w.wroteHeader = false) (hok : ∀ n, w.pending.head? ≠ some (WriteResult.err n)) :
    ((handleRoot w r now).1.Code = 200 ∧
      Header.Get (handleRoot w r now).1.sentHeader contentType = applicationJSON ∧
      Header.Get (handleRoot w r now).1.header contentType = applicationJSON ∧
      ∃ out : Text, (handleRoot w r now).1.Body = w.Body ++ out ∧
        out = TimeResponse.marshal
          { Timestamp := ofText (FormatRFC3339Nano now), IP := getClientIP r } ++ ['\n'] ∧
        jsonField "ip" out = some (replaceInvalidUTF8 (getClientIP r)) ∧
        ((∀ u ∈ getClientIP r, ∃ c, u = Rune.char c) →
          (jsonField "ip" out).map ofText = some (getClientIP r)) ∧
        jsonField "timestamp" out = some (FormatRFC3339Nano now)) ∧
    ((handleHealth w r).1.Code = 200 ∧
      Header.Get (handleHealth w r).1.sentHeader contentType = applicationJSON ∧
      Header.Get (handleHealth w r).1.header contentType = applicationJSON ∧
      (handleHealth w r).1.Body = w.Body ++ "\x7b\"status\":\"healthy\"\x7d\n".toList ∧
      ∀ r2 : Request, handleHealth w r2 = handleHealth w r) := by
  obtain ⟨a1, a2, a3, a4⟩ := handleHealth_success w r hw hok
  obtain ⟨b1, b2, b3, b4⟩ := handleRoot_success w r now hw hok
  obtain ⟨j1, j2⟩ := jsonField_marshal
    { Timestamp := ofText (FormatRFC3339Nano now), IP := getClientIP r }
  refine ⟨⟨b1, b2, b3, _, b4, rfl, j2, ?_, ?_⟩, a1, a2, a3, a4, fun _ => rfl⟩
  · intro hvalid
    rw [j2]
    exact congrArg some (ofText_replaceInvalidUTF8 _ hvalid)
  · rw [j1]
    exact congrArg some (replaceInvalidUTF8_ofText _)

theorem handlers_success_witness :
    (NewRecorder []).wroteHeader = false ∧
    (handleRoot (NewRecorder []) exampleForwarded exampleInstant).1.Code = 200 ∧
    (∃ out : Text, (handleRoot (NewRecorder []) exampleForwarded exampleInstant).1.Body
        = (NewRecorder []).Body ++ out ∧
      out = TimeResponse.marshal
        { Timestamp := ofText (FormatRFC3339Nano exampleInstant),
          IP := getClientIP exampleForwarded } ++ ['\n'] ∧
      jsonField "ip" out = some (replaceInvalidUTF8 (getClientIP exampleForwarded)) ∧
      ((∀ u ∈ getClientIP exampleForwarded, ∃ c, u = Rune.char c) →
        (jsonField "ip" out).map ofText = some (getClientIP exampleForwarded)) ∧
      jsonField "timestamp" out = some (FormatRFC3339Nano exampleInstant)) ∧
    replaceInvalidUTF8 (getClientIP exampleForwarded) = "203.0.113.42".toList ∧
    (handleRoot (NewRecorder []) exampleForwarded exampleInstant).1.Body
      = ("\x7b\"timestamp\":\"2025-11-02T00:00:00.123456Z\",\"ip\":\"203.0.113.42\"\x7d"
          ++ "\n").toList ∧
    (handleHealth (NewRecorder []) exampleForwarded).1.Code = 200 ∧
    (handleHealth (NewRecorder []) exampleForwarded).1.Body
      = "\x7b\"status\":\"healthy\"\x7d\n".toList :=
  ⟨rfl,
    (handlers_success (NewRecorder []) exampleForwarded exampleInstant rfl
      (fun _ h => by cases h)).1.1,
    (handlers_success (NewRecorder []) exampleForwarded exampleInstant rfl
      (fun _ h => by cases h)).1.2.2.2,
    by decide,
    by decide,
    (handlers_success (NewRecorder []) exampleForwarded exampleInstant rfl
      (fun _ h => by cases h)).2.1,
    (handlers_success (NewRecorder []) exampleForwarded exampleInstant rfl
      (fun _ h => by cases h)).2.2.2.2.1⟩

/-- C5 (the code departs from the claim): when the write of the encoder fails
on a fresh writer, each handler takes its error branch and ends with status
200, not 500, and the headers sent still say `application/json`: the status
line was written before the encoding, so the `WriteHeader(500)` of
`http.Error` changes nothing. -/
theorem handlers_encode_failure_keeps_200 (r : Request) (now : Time) (n : Nat)
    (rest : List WriteResult) :
    (handleRoot (NewRecorder (.err n :: rest)) r now).2 = [str "Error encoding response"] ∧
    (handleRoot (NewRecorder (.err n :: rest)) r now).1.Code = 200 ∧
    Header.Get (handleRoot (NewRecorder (.err n :: rest)) r now).1.sentHeader contentType
      = applicationJSON ∧
    (handleHealth (NewRecorder (.err n :: rest)) r).2
      = [str "Error encoding health response"] ∧
    (handleHealth (NewRecorder (.err n :: rest)) r).1.Code = 200 ∧
    Header.Get (handleHealth (NewRecorder (.err n :: rest)) r).1.sentHeader contentType
      = applicationJSON := by
  obtain ⟨hp1, hp2, hp3, _, _, hp6⟩ := prepared_spec (NewRecorder (.err n :: rest)) rfl
  have hp6b : (prepared (NewRecorder (.err n :: rest))).pending = .err n :: rest := hp6
  obtain ⟨h1, h2, h3, h4, _⟩ := Write_err (prepared (NewRecorder (.err n :: rest)))
    (TimeResponse.marshal { Timestamp := ofText (FormatRFC3339Nano now), IP := getClientIP r }
      ++ ['\n']) n rest hp1 hp6b
  obtain ⟨g1, g2, g3, g4, _⟩ := Write_err (prepared (NewRecorder (.err n :: rest)))
    (HealthResponse.marshal { Status := str "healthy" } ++ ['\n']) n rest hp1 hp6b
  have e1 := httpError_keeps _ "Internal server error".toList StatusInternalServerError h4
  have e2 := httpError_keeps _ "Internal server error".toList StatusInternalServerError g4
  rw [handleRoot_eq, handleHealth_eq]
  simp only [Encode, h1, g1, if_true, e1.1, e1.2, e2.1, e2.2, h2, h3, g2, g3, hp2, hp3,
    and_self]

/-! ## Time: lemmas -/

theorem digitChar_toNat (n : Nat) : (digitChar n).toNat = 48 + n % 10 := by
  have h : n % 10 < 10 := Nat.mod_lt _ (by decide)
  simp only [digitChar]
  generalize n % 10 = d at h
  interval_cases d <;> rfl

theorem isDigitChar_digitChar (n : Nat) : isDigitChar (digitChar n) = true := by
  have h : n % 10 < 10 := Nat.mod_lt _ (by decide)
  simp only [digitChar]
  generalize n % 10 = d at h
  interval_cases d <;> rfl

theorem lastDigits_length (w n : Nat) : (lastDigits w n).length = w := by
  induction w generalizing n with
  | zero => rfl
  | succ w ih => simp [lastDigits, ih]

theorem parseDigits_append (ds es : Text) (x : Nat) :
    parseDigits (ds ++ es) x = (parseDigits ds x).bind (fun y => parseDigits es y) := by
  induction ds generalizing x with
  | nil => simp [parseDigits]
  | cons c cs ih =>
    by_cases hc : isDigitChar c = true
    · simp [parseDigits, hc, ih]
    · simp [parseDigits, hc]

theorem parseDigits_lastDigits (w n x : Nat) :
    parseDigits (lastDigits w n) x = some (x * 10 ^ w + n % 10 ^ w) := by
  induction w generalizing n x with
  | zero => simp [lastDigits, parseDigits, Nat.mod_one]
  | succ w ih =>
    simp only [lastDigits, parseDigits_append, ih, Option.some_bind, parseDigits,
      isDigitChar_digitChar, if_true, digitChar_toNat]
    congr 1
    have h1 : n % 10 ^ (w + 1) = (n / 10 % 10 ^ w) * 10 + n % 10 := by
      rw [pow_succ, Nat.mul_comm (10 ^ w) 10, Nat.mod_mul]
      ring
    rw [h1, pow_succ]
    have : 48 + n % 10 - 48 = n % 10 := by omega
    rw [this]
    ring

theorem absDate_eq (abs : Nat) :
    absDate abs =
      (toInt64 ((yearDay (abs / secondsPerDay)).1 : Int) + absoluteZeroYear,
        monthDay (isLeap (toInt64 ((yearDay (abs / secondsPerDay)).1 : Int) + absoluteZeroYear))
          (yearDay (abs / secondsPerDay)).2) := by
  generalize hy : yearDay (abs / secondsPerDay) = yd
  have h1 : absDate abs = 
      if isLeap (toInt64 (yd.1 : Int) + absoluteZeroYear) && yd.2 == 31 + 29 - 1 then
        (toInt64 (yd.1 : Int) + absoluteZeroYear, 2, 29)
      else
        let day := if isLeap (toInt64 (yd.1 : Int) + absoluteZeroYear) && yd.2 > 31 + 29 - 1
          then yd.2 - 1 else yd.2
        let month := day / 31
        let endd := daysBefore (month + 1)
        if day ≥ endd then (toInt64 (yd.1 : Int) + absoluteZeroYear, month + 2, day - endd + 1)
        else (toInt64 (yd.1 : Int) + absoluteZeroYear, month + 1, day - daysBefore month + 1) := by
    rw [← hy]
    rfl
  rw [h1]
  generalize isLeap (toInt64 (yd.1 : Int) + absoluteZeroYear) = leap
  generalize toInt64 (yd.1 : Int) + absoluteZeroYear = yr
  generalize yd.2 = yday
  simp only [monthDay]
  split_ifs <;> rfl

set_option maxRecDepth 100000 in
theorem monthDay_spec : ∀ leap : Bool, ∀ yday < 366, (yday < 365 ∨ leap = true) →
    1 ≤ (monthDay leap yday).1 ∧ (monthDay leap yday).1 ≤ 12 ∧
    1 ≤ (monthDay leap yday).2 ∧
    (monthDay leap yday).2 ≤
      (if (monthDay leap yday).1 = 2 && leap then 29
        else daysBefore (monthDay leap yday).1 - daysBefore ((monthDay leap yday).1 - 1)) ∧
    daysBefore ((monthDay leap yday).1 - 1) +
      (if leap && decide ((monthDay leap yday).1 ≥ 3) then 1 else 0)
      + ((monthDay leap yday).2 - 1) = yday := by
  decide

theorem yearDay_decomp (D : Nat) :
    ∃ q c f g d : Nat, yearDay D = (400 * q + 100 * c + 4 * f + g, d) ∧
      D = 146097 * q + 36524 * c + 1461 * f + 365 * g + d ∧
      c ≤ 3 ∧ f ≤ 24 ∧ g ≤ 3 ∧
      365 * g + d ≤ 1460 ∧ (g < 3 → d ≤ 364) ∧
      1461 * f + 365 * g + d ≤ 36524 ∧ (c < 3 → 1461 * f + 365 * g + d ≤ 36523) ∧
      36524 * c + 1461 * f + 365 * g + d ≤ 146096 := by
  refine ⟨D / 146097,
    (D - 146097 * (D / 146097)) / 36524 - (D - 146097 * (D / 146097)) / 36524 / 4,
    (D - 146097 * (D / 146097) - 36524 * ((D - 146097 * (D / 146097)) / 36524
      - (D - 146097 * (D / 146097)) / 36524 / 4)) / 1461, ?_⟩
  generalize hq : D / 146097 = q
  generalize hd1 : D - 146097 * q = d1
  have b1 : d1 ≤ 146096 ∧ D = 146097 * q + d1 := by omega
  generalize hc : d1 / 36524 - d1 / 36524 / 4 = c
  have b2 : c ≤ 3 ∧ 36524 * c ≤ d1 ∧ (c < 3 → d1 < 36524 * c + 36524) := by omega
  generalize hd2 : d1 - 36524 * c = d2
  have b3 : d1 = 36524 * c + d2 ∧ d2 ≤ 36524 ∧ (c < 3 → d2 ≤ 36523) := by omega
  generalize hf : d2 / 1461 = f
  generalize hd3 : d2 - 1461 * f = d3
  have b4 : d2 = 1461 * f + d3 ∧ d3 ≤ 1460 ∧ f ≤ 24 := by omega
  refine ⟨d3 / 365 - d3 / 365 / 4, d3 - 365 * (d3 / 365 - d3 / 365 / 4), ?_⟩
  generalize hg : d3 / 365 - d3 / 365 / 4 = g
  have b5 : g ≤ 3 ∧ 365 * g ≤ d3 ∧ (g < 3 → d3 < 365 * g + 365) := by omega
  refine ⟨?_, ?_⟩
  · simp only [yearDay, daysPer400Years, daysPer100Years, daysPer4Years, hq, hd1, hc, hd2,
      hf, hd3, hg]
  · omega

theorem isLeap_iff (year : Int) :
    isLeap year = true ↔ year % 4 = 0 ∧ (year % 100 ≠ 0 ∨ year % 400 = 0) := by
  simp [isLeap]

theorem isLeap_decomp (q c f g : Nat) (hc : c ≤ 3) (hf : f ≤ 24) (hg : g ≤ 3) :
    isLeap (((400 * q + 100 * c + 4 * f + g : Nat) : Int) + absoluteZeroYear) = true
      ↔ g = 3 ∧ (f ≠ 24 ∨ c = 3) := by
  rw [isLeap_iff]
  simp only [absoluteZeroYear]
  omega

theorem daysSinceEpoch_decomp (q c f g : Nat) (hc : c ≤ 3) (hf : f ≤ 24) (hg : g ≤ 3)
    (hq : q < 1000000000000) :
    daysSinceEpoch (((400 * q + 100 * c + 4 * f + g : Nat) : Int) + absoluteZeroYear)
      = 146097 * q + 36524 * c + 1461 * f + 365 * g := by
  have h1 : toUint64 (((400 * q + 100 * c + 4 * f + g : Nat) : Int) + absoluteZeroYear
      - absoluteZeroYear) = 400 * q + 100 * c + 4 * f + g := by
    simp only [toUint64, absoluteZeroYear]
    omega
  simp only [daysSinceEpoch, h1, daysPer400Years, daysPer100Years, daysPer4Years]
  omega

theorem norm_id (hi lo base : Int) (h0 : 0 ≤ lo) (h1 : lo < base) :
    norm hi lo base = (hi, lo) := by
  simp [norm, not_lt.mpr h0, not_le.mpr h1]

theorem Date_eq (year : Int) (month day hour min sec nsec : Nat)
    (hm1 : 1 ≤ month) (hm2 : month ≤ 12) (hh : hour < 24) (hmin : min < 60) (hs : sec < 60)
    (hn : nsec < 1000000000) :
    Date year month day hour min sec nsec =
      { sec := toInt64 (toInt64 (toUint64 (toUint64
            ((((daysSinceEpoch year : Int) + daysBefore (month - 1)
              + (if isLeap year && decide (month ≥ 3) then 1 else 0)) + ((day : Int) - 1)) * 86400)
            + toUint64 ((hour : Int) * 3600 + min * 60 + sec)))
          + (absoluteToInternal + (-unixToInternal)))
        nsec := nsec } := by
  have e1 : norm year ((month : Int) - 1) 12 = (year, (month : Int) - 1) :=
    norm_id _ _ _ (by omega) (by omega)
  have e2 : norm (sec : Int) (nsec : Int) 1000000000 = ((sec : Int), (nsec : Int)) :=
    norm_id _ _ _ (by omega) (by omega)
  have e3 : norm (min : Int) (sec : Int) 60 = ((min : Int), (sec : Int)) :=
    norm_id _ _ _ (by omega) (by omega)
  have e4 : norm (hour : Int) (min : Int) 60 = ((hour : Int), (min : Int)) :=
    norm_id _ _ _ (by omega) (by omega)
  have e5 : norm (day : Int) (hour : Int) 24 = ((day : Int), (hour : Int)) :=
    norm_id _ _ _ (by omega) (by omega)
  have e6 : ((month : Int) - 1 + 1 - 1).toNat = month - 1 := by omega
  have e7 : (decide ((month : Int) - 1 + 1 ≥ 3)) = decide (month ≥ 3) := by
    apply decide_eq_decide.mpr
    omega
  simp only [Date, e1, e2, e3, e4, e5, e6, e7, Int.toNat_ofNat]
  split <;> rfl

theorem absClock_spec (abs : Nat) :
    (absClock abs).1 < 24 ∧ (absClock abs).2.1 < 60 ∧ (absClock abs).2.2 < 60 ∧
      (absClock abs).1 * 3600 + (absClock abs).2.1 * 60 + (absClock abs).2.2 = abs % 86400 := by
  simp only [absClock, secondsPerDay]
  omega

theorem abs_eq (t : Time) (h : inYearRange t) :
    (t.abs : Int) = t.sec + 9223372028715321600 := by
  obtain ⟨lo, hi⟩ := h
  simp only [Time.abs, toUint64, unixToInternal, absoluteToInternal]
  omega

theorem year_bounds (q c f g d : Nat)
    (lo : 106751990353566 ≤ 146097 * q + 36524 * c + 1461 * f + 365 * g + d)
    (hi : 146097 * q + 36524 * c + 1461 * f + 365 * g + d < 106751994005991)
    (hc : c ≤ 3) (hf : f ≤ 24) (hg : g ≤ 3)
    (h1 : 365 * g + d ≤ 1460) (h2 : g < 3 → d ≤ 364)
    (h3 : 1461 * f + 365 * g + d ≤ 36524) (h4 : c < 3 → 1461 * f + 365 * g + d ≤ 36523)
    (h5 : 36524 * c + 1461 * f + 365 * g + d ≤ 146096) :
    292277022399 ≤ 400 * q + 100 * c + 4 * f + g ∧
      400 * q + 100 * c + 4 * f + g ≤ 292277022399 + 9999 := by
  have hq1 : 730692555 ≤ q := by omega
  have hq2 : q ≤ 730692580 := by omega
  constructor
  · rcases Nat.lt_or_ge 730692555 q with h | h
    · omega
    · have hq : q = 730692555 := by omega
      subst hq
      have hc3 : c = 3 := by omega
      subst hc3
      have hf24 : f = 24 := by omega
      subst hf24
      have hg3 : g = 3 := by omega
      omega
  · rcases Nat.lt_or_ge q 730692580 with h | h
    · omega
    · have hq : q = 730692580 := by omega
      subst hq
      by_contra hcon
      have hc3 : c = 3 := by omega
      subst hc3
      have hf24 : f = 24 := by omega
      subst hf24
      have hg3 : g = 3 := by omega
      omega

theorem toUint64_cast (x : Int) (h0 : 0 ≤ x) (h1 : x < 18446744073709551616) :
    ((toUint64 x : Nat) : Int) = x := by
  simp only [toUint64]
  rw [Int.emod_eq_of_lt h0 h1, Int.toNat_of_nonneg h0]

theorem toUint64_natCast (n : Nat) (h1 : n < 18446744073709551616) :
    toUint64 (n : Int) = n := by
  have h := toUint64_cast (n : Int) (Int.natCast_nonneg n) (by exact_mod_cast h1)
  exact_mod_cast h

theorem toInt64_id (x : Int) (h0 : -9223372036854775808 ≤ x) (h1 : x < 9223372036854775808) :
    toInt64 x = x := by
  simp only [toInt64]
  rw [Int.emod_eq_of_lt (by linarith) (by linarith)]
  ring

theorem toInt64_toInt64_add (x k : Int) : toInt64 (toInt64 x + k) = toInt64 (x + k) := by
  simp only [toInt64]
  omega

theorem sec_roundtrip (s : Int) (A D R dse d db adj dy hh mi ss : Nat)
    (habs : (A : Int) = s + 9223372028715321600)
    (lo : -62167219200 ≤ s) (hi : s ≤ 253402300799)
    (hA : A = 86400 * D + R) (hR : R < 86400)
    (hD : D = dse + d) (m5 : db + adj + (dy - 1) = d) (m3 : 1 ≤ dy)
    (c4 : hh * 3600 + mi * 60 + ss = R) :
    toInt64 (toInt64 (toUint64 (toUint64
        ((((dse : Int) + db + adj) + ((dy : Int) - 1)) * 86400)
        + toUint64 ((hh : Int) * 3600 + mi * 60 + ss)))
        + (absoluteToInternal + (-unixToInternal))) = s := by
  have e1 : (((dse : Int) + db + adj) + ((dy : Int) - 1)) * 86400 = ((86400 * D : Nat) : Int) := by
    omega
  have e2 : (hh : Int) * 3600 + mi * 60 + ss = (R : Int) := by
    omega
  have u1 : toUint64 ((86400 * D : Nat) : Int) = 86400 * D := toUint64_natCast _ (by omega)
  have u2 : toUint64 (R : Int) = R := toUint64_natCast _ (by omega)
  have u3 : (((86400 * D : Nat) : Int) + (R : Int)) = (A : Int) := by
    omega
  have u4 : toUint64 (A : Int) = A := toUint64_natCast _ (by omega)
  rw [e1, e2, u1, u2, u3, u4, toInt64_toInt64_add]
  simp only [absoluteToInternal, unixToInternal]
  rw [toInt64_id _ (by omega) (by omega)]
  omega

theorem year_toInt64 (y : Nat) (hy1 : 292277022399 ≤ y) (hy2 : y ≤ 292277022399 + 9999) :
    toInt64 (y : Int) + absoluteZeroYear = ((y - 292277022399 : Nat) : Int) := by
  simp only [toInt64, absoluteZeroYear]
  omega

theorem year_isLeap (q c f g y : Nat) (hy : 400 * q + 100 * c + 4 * f + g = y)
    (hy2 : y ≤ 292277022399 + 9999) (hc : c ≤ 3) (hf : f ≤ 24) (hg : g ≤ 3) :
    (isLeap (toInt64 (y : Int) + absoluteZeroYear) = true ↔ g = 3 ∧ (f ≠ 24 ∨ c = 3)) := by
  have hyy : toInt64 (y : Int) = (y : Int) := by
    simp only [toInt64]
    omega
  have hleap := isLeap_decomp q c f g hc hf hg
  rw [hy, ← hyy] at hleap
  exact hleap

theorem year_daysSinceEpoch (q c f g y : Nat) (hy : 400 * q + 100 * c + 4 * f + g = y)
    (hy2 : y ≤ 292277022399 + 9999) (hc : c ≤ 3) (hf : f ≤ 24) (hg : g ≤ 3) :
    daysSinceEpoch (toInt64 (y : Int) + absoluteZeroYear)
      = 146097 * q + 36524 * c + 1461 * f + 365 * g := by
  have hyy : toInt64 (y : Int) = (y : Int) := by
    simp only [toInt64]
    omega
  have hdse := daysSinceEpoch_decomp q c f g hc hf hg (by omega)
  rw [hy, ← hyy] at hdse
  exact hdse

theorem yday_bounds (c f g d : Nat) (hc : c ≤ 3)
    (k1 : 365 * g + d ≤ 1460) (k2 : g < 3 → d ≤ 364)
    (k4 : c < 3 → 1461 * f + 365 * g + d ≤ 36523) :
    d < 366 ∧ (¬ d < 365 → g = 3 ∧ (f ≠ 24 ∨ c = 3)) := by
  omega

/-- The calendar fields `Format` prints for an instant of the years 0 to 9999
are in range, and `Date` maps them back to the instant. -/
theorem civil_roundtrip (t : Time) (h : inYearRange t) (hn : t.nsec < 1000000000) :
    ∃ year : Nat, (absDate t.abs).1 = (year : Int) ∧ year ≤ 9999 ∧
      1 ≤ (absDate t.abs).2.1 ∧ (absDate t.abs).2.1 ≤ 12 ∧
      1 ≤ (absDate t.abs).2.2 ∧ (absDate t.abs).2.2 ≤ daysIn (absDate t.abs).2.1 year ∧
      (absClock t.abs).1 ≤ 23 ∧ (absClock t.abs).2.1 ≤ 59 ∧ (absClock t.abs).2.2 ≤ 59 ∧
      Date year (absDate t.abs).2.1 (absDate t.abs).2.2 (absClock t.abs).1
        (absClock t.abs).2.1 (absClock t.abs).2.2 t.nsec = t := by
  have habs := abs_eq t h
  obtain ⟨q, c, f, g, d, hyd, hD, hc, hf, hg, k1, k2, k3, k4, k5⟩ :=
    yearDay_decomp (t.abs / secondsPerDay)
  have hDlo : 106751990353566 ≤ t.abs / secondsPerDay := by
    obtain ⟨lo, hi⟩ := h
    simp only [secondsPerDay]; omega
  have hDhi : t.abs / secondsPerDay < 106751994005991 := by
    obtain ⟨lo, hi⟩ := h
    simp only [secondsPerDay]; omega
  obtain ⟨hy1, hy2⟩ := year_bounds q c f g d (hD ▸ hDlo) (hD ▸ hDhi) hc hf hg k1 k2 k3 k4 k5
  have hyear := year_toInt64 _ hy1 hy2
  have hy3 : 400 * q + 100 * c + 4 * f + g - 292277022399 ≤ 9999 :=
    Nat.sub_le_of_le_add ((Nat.add_comm 292277022399 9999) ▸ hy2)
  have hleap := year_isLeap q c f g _ rfl hy2 hc hf hg
  have hdse := year_daysSinceEpoch q c f g _ rfl hy2 hc hf hg
  obtain ⟨hd365, hd⟩ := yday_bounds c f g d hc k1 k2 k4
  have hdl : d < 365 ∨ isLeap (toInt64 ((400 * q + 100 * c + 4 * f + g : Nat) : Int)
      + absoluteZeroYear) = true := by
    by_cases hd1 : d < 365
    · exact Or.inl hd1
    · exact Or.inr (hleap.mpr (hd hd1))
  clear hleap hd
  have hd1 : (absDate t.abs).1 = toInt64 ((400 * q + 100 * c + 4 * f + g : Nat) : Int)
      + absoluteZeroYear := by
    rw [absDate_eq, hyd]
  have hd2 : (absDate t.abs).2 = monthDay (isLeap (toInt64
      ((400 * q + 100 * c + 4 * f + g : Nat) : Int) + absoluteZeroYear)) d := by
    rw [absDate_eq, hyd]
  generalize hl : isLeap (toInt64 ((400 * q + 100 * c + 4 * f + g : Nat) : Int)
    + absoluteZeroYear) = leap at hd2 hdl
  obtain ⟨m1, m2, m3, m4, m5⟩ := monthDay_spec leap d hd365 hdl
  obtain ⟨c1, c2, c3, c4⟩ := absClock_spec t.abs
  rw [hd2]
  refine ⟨400 * q + 100 * c + 4 * f + g - 292277022399, ?_, hy3, m1, m2, m3, ?_,
    Nat.le_of_lt_succ c1, Nat.le_of_lt_succ c2, Nat.le_of_lt_succ c3, ?_⟩
  · rw [hd1, hyear]
  · simp only [daysIn, ← hyear, hl]
    exact m4
  · rw [Date_eq _ _ _ _ _ _ _ m1 m2 c1 c2 c3 hn, ← hyear, hdse, hl]
    have e : (if (leap && decide ((monthDay leap d).1 ≥ 3)) = true then (1 : Int) else 0)
        = ((if (leap && decide ((monthDay leap d).1 ≥ 3)) = true then 1 else 0 : Nat) : Int) := by
      split <;> rfl
    rw [e]
    have hsec := sec_roundtrip t.sec t.abs (t.abs / 86400) (t.abs % 86400)
      (146097 * q + 36524 * c + 1461 * f + 365 * g) d
      (daysBefore ((monthDay leap d).1 - 1))
      (if (leap && decide ((monthDay leap d).1 ≥ 3)) = true then 1 else 0)
      (monthDay leap d).2 (absClock t.abs).1 (absClock t.abs).2.1 (absClock t.abs).2.2
      habs h.1 h.2 (Nat.div_add_mod _ _).symm (Nat.mod_lt _ (by decide)) hD m5 m3 c4
    rw [hsec]

theorem numDigitsAux_le (fuel u w : Nat) (hw : 1 ≤ w) (hu : u < 10 ^ w) :
    numDigitsAux fuel u ≤ w := by
  induction fuel generalizing u w with
  | zero => simpa [numDigitsAux] using hw
  | succ fuel ih =>
    simp only [numDigitsAux]
    split
    · exact hw
    · rename_i h10
      obtain ⟨w, rfl⟩ : ∃ v, w = v + 1 := ⟨w - 1, by omega⟩
      have hw1 : 1 ≤ w := by
        rcases Nat.eq_zero_or_pos w with h0 | h0
        · subst h0
          simp at hu
          omega
        · exact h0
      have hu' : u / 10 < 10 ^ w := by
        rw [pow_succ] at hu
        exact Nat.div_lt_of_lt_mul (by rw [Nat.mul_comm]; exact hu)
      have := ih (u / 10) w hw1 hu'
      omega

theorem appendInt_natCast (n w : Nat) (hw : 1 ≤ w) (hn : n < 10 ^ w) :
    appendInt (n : Int) w = lastDigits w n := by
  have h1 : ¬ ((n : Int) < 0) := by omega
  have h2 : numDigits n ≤ w := numDigitsAux_le n n w hw hn
  simp only [appendInt, h1, if_false, Int.natAbs_ofNat, List.nil_append, Nat.max_eq_left h2]

theorem lastDigits_isDigit (w n : Nat) : ∀ c ∈ lastDigits w n, isDigitChar c = true := by
  induction w generalizing n with
  | zero => simp [lastDigits]
  | succ w ih =>
    intro c hc
    simp only [lastDigits, List.mem_append, List.mem_singleton] at hc
    rcases hc with hc | hc
    · exact ih _ c hc
    · rw [hc]
      exact isDigitChar_digitChar n

theorem dropWhile_append_of_mem {p : Char → Bool} (l1 l2 : Text)
    (h : ∃ c ∈ l1, p c = false) : (l1 ++ l2).dropWhile p = l1.dropWhile p ++ l2 := by
  induction l1 with
  | nil => simp at h
  | cons x xs ih =>
    by_cases hx : p x = true
    · obtain ⟨c, hc, hpc⟩ := h
      have hcx : c ∈ xs := by
        rcases List.mem_cons.mp hc with rfl | h'
        · rw [hx] at hpc
          cases hpc
        · exact h'
      simp [List.dropWhile_cons, hx, ih ⟨c, hcx, hpc⟩]
    · simp [List.dropWhile_cons, hx]

theorem trimRightZeros_append (b ds : Text) (h : ∃ c ∈ ds, c ≠ '0') :
    trimRightZeros (b ++ ds) = b ++ trimRightZeros ds := by
  obtain ⟨c, hc, hne⟩ := h
  simp only [trimRightZeros, List.reverse_append]
  rw [dropWhile_append_of_mem _ _ ⟨c, List.mem_reverse.mpr hc, by simpa using hne⟩]
  simp

theorem trimRightZeros_spec (l : Text) :
    ∃ k, l = trimRightZeros l ++ List.replicate k '0' ∧
      ∀ c, (trimRightZeros l).getLast? = some c → c ≠ '0' := by
  refine ⟨(l.reverse.takeWhile (fun c => c == '0')).length, ?_, ?_⟩
  · have h1 : l.reverse.takeWhile (fun c => c == '0')
        = List.replicate (l.reverse.takeWhile (fun c => c == '0')).length '0' := by
      apply List.eq_replicate_of_mem
      intro c hc
      simpa using List.mem_takeWhile_imp hc
    have h2 := List.takeWhile_append_dropWhile (fun c => c == '0') l.reverse
    have h3 : l = (l.reverse.dropWhile (fun c => c == '0')).reverse
        ++ (l.reverse.takeWhile (fun c => c == '0')).reverse := by
      rw [← List.reverse_append, h2, List.reverse_reverse]
    rw [h1, List.reverse_replicate] at h3
    simpa [trimRightZeros] using h3
  · intro c hc
    have := List.head?_dropWhile_not (fun c => c == '0') l.reverse
    simp only [trimRightZeros, List.getLast?_reverse] at hc
    rw [hc] at this
    simpa using this

theorem parseDigits_zeros (k x : Nat) :
    parseDigits (List.replicate k '0') x = some (x * 10 ^ k) := by
  induction k generalizing x with
  | zero => simp [parseDigits]
  | succ k ih =>
    have h0 : isDigitChar '0' = true := by decide
    have h1 : ('0' : Char).toNat - 48 = 0 := by decide
    simp only [List.replicate_succ, parseDigits, h0, if_true, h1, ih, Nat.add_zero, pow_succ]
    congr 1
    ring

theorem parseDigits_isSome (ds : Text) (x : Nat) (h : ∀ c ∈ ds, isDigitChar c = true) :
    ∃ v, parseDigits ds x = some v := by
  induction ds generalizing x with
  | nil => exact ⟨x, rfl⟩
  | cons c cs ih =>
    have hc : isDigitChar c = true := h c (List.mem_cons_self _ _)
    simp only [parseDigits, hc, if_true]
    exact ih _ (fun c' hc' => h c' (List.mem_cons_of_mem _ hc'))

/-- The digits kept by `appendNano` for a non-zero fraction: they are not
empty, they are digits, the last one is not `'0'`, and read as a number and
scaled by the zeros removed they give the nanoseconds back. -/
theorem frac_digits (ns : Nat) (h0 : ns ≠ 0) (h1 : ns < 1000000000) :
    ∃ d0 dt k v, trimRightZeros (lastDigits 9 ns) = d0 :: dt ∧
      (d0 :: dt).length + k = 9 ∧ (∀ c ∈ d0 :: dt, isDigitChar c = true) ∧
      (∃ c ∈ lastDigits 9 ns, c ≠ '0') ∧
      (∀ c, (d0 :: dt).getLast? = some c → c ≠ '0') ∧
      parseDigits (d0 :: dt) 0 = some v ∧ v * 10 ^ k = ns := by
  obtain ⟨k, hk, hlast⟩ := trimRightZeros_spec (lastDigits 9 ns)
  have hdig : ∀ c ∈ trimRightZeros (lastDigits 9 ns), isDigitChar c = true := by
    intro c hc
    apply lastDigits_isDigit 9 ns
    rw [hk]
    exact List.mem_append_left _ hc
  obtain ⟨v, hv⟩ := parseDigits_isSome _ 0 hdig
  have hp := parseDigits_lastDigits 9 ns 0
  rw [hk, parseDigits_append, hv, Option.some_bind, parseDigits_zeros] at hp
  have hval : v * 10 ^ k = ns := by
    have := Option.some.inj hp
    rw [this, Nat.mod_eq_of_lt (by norm_num; exact h1)]
    simp
  have hlen : (trimRightZeros (lastDigits 9 ns)).length + k = 9 := by
    have := congrArg List.length hk
    simp only [lastDigits_length, List.length_append, List.length_replicate] at this
    exact this.symm
  cases hds : trimRightZeros (lastDigits 9 ns) with
  | nil =>
    rw [hds] at hv
    simp only [parseDigits, Option.some.injEq] at hv
    rw [← hv] at hval
    simp at hval
    exact absurd hval.symm h0
  | cons d0 dt =>
    rw [hds] at hlen hdig hlast hv
    refine ⟨d0, dt, k, v, rfl, hlen, hdig, ?_, hlast, hv, hval⟩
    by_contra hcon
    push_neg at hcon
    have hall : lastDigits 9 ns = List.replicate 9 '0' := by
      have := List.eq_replicate_of_mem hcon
      rw [lastDigits_length] at this
      exact this
    have hp2 := parseDigits_lastDigits 9 ns 0
    rw [hall, parseDigits_zeros] at hp2
    have := Option.some.inj hp2
    rw [Nat.mod_eq_of_lt (by norm_num; exact h1)] at this
    simp at this
    exact h0 this.symm

theorem appendNano_eq (b : Text) (ns : Nat) (h1 : ns < 1000000000) :
    appendNano b ns = b ++ fracPart ns := by
  by_cases h0 : ns = 0
  · simp [appendNano, fracPart, h0]
  · obtain ⟨d0, dt, k, v, hds, hlen, hdig, hnz, hlast, hv, hval⟩ := frac_digits ns h0 h1
    have hint : appendInt (ns : Int) 9 = lastDigits 9 ns :=
      appendInt_natCast ns 9 (by decide) (by norm_num; exact h1)
    have htrim : trimRightZeros (b ++ ['.'] ++ lastDigits 9 ns)
        = b ++ ['.'] ++ trimRightZeros (lastDigits 9 ns) :=
      trimRightZeros_append _ _ hnz
    have hl : (b ++ ['.'] ++ (d0 :: dt)).getLast? = (d0 :: dt).getLast? := by
      rw [List.getLast?_append_of_ne_nil _ (List.cons_ne_nil _ _)]
    have hnd : (b ++ ['.'] ++ (d0 :: dt)).getLast? ≠ some '.' := by
      rw [hl]
      intro hc
      have hmem : '.' ∈ d0 :: dt := List.mem_of_getLast?_eq_some hc
      have := hdig '.' hmem
      exact absurd this (by decide)
    simp only [appendNano, h0, if_false, hint, htrim, hds, fracPart]
    rw [if_neg hnd]
    simp

theorem parseRFC3339_shape (y0 y1 y2 y3 m0 m1 d0 d1 h0 h1 i0 i1 s0 s1 : Char) (rest : Text)
    (year month day hour min sec : Nat)
    (hY : parseUint [y0, y1, y2, y3] 0 9999 = some year)
    (hM : parseUint [m0, m1] 1 12 = some month)
    (hD : parseUint [d0, d1] 1 (daysIn month year) = some day)
    (hH : parseUint [h0, h1] 0 23 = some hour)
    (hI : parseUint [i0, i1] 0 59 = some min)
    (hS : parseUint [s0, s1] 0 59 = some sec) :
    parseRFC3339 (y0 :: y1 :: y2 :: y3 :: '-' :: m0 :: m1 :: '-' :: d0 :: d1 :: 'T'
      :: h0 :: h1 :: ':' :: i0 :: i1 :: ':' :: s0 :: s1 :: rest)
      = parseRest rest year month day hour min sec := by
  simp only [parseRFC3339, slice, hY, hM, hD, hH, hI, hS, parseRest, List.length_cons,
    List.drop_succ_cons, List.drop_zero, List.take_succ_cons, List.take_zero, List.drop,
    List.take, List.get?_cons_succ, List.get?_cons_zero, List.get?, and_self, if_true,
    Nat.sub_zero, Nat.reduceSub]
  exact if_neg (by omega)

theorem takeWhile_digits_append (ds tl : Text) (x : Char) (h : ∀ c ∈ ds, isDigitChar c = true)
    (hx : isDigitChar x = false) :
    (ds ++ x :: tl).takeWhile isDigitChar = ds := by
  induction ds with
  | nil => simp [List.takeWhile_cons, hx]
  | cons c cs ih =>
    have hc : isDigitChar c = true := h c (List.mem_cons_self _ _)
    simp [List.takeWhile_cons, hc, ih (fun c' hc' => h c' (List.mem_cons_of_mem _ hc'))]

theorem parseRest_Z (year month day hour min sec : Nat) :
    parseRest ['Z'] year month day hour min sec = some (Date year month day hour min sec 0) := by
  simp [parseRest]

theorem parseRest_frac (d0 : Char) (dt : Text) (k v : Nat) (year month day hour min sec : Nat)
    (hlen : (d0 :: dt).length + k = 9) (hdig : ∀ c ∈ d0 :: dt, isDigitChar c = true)
    (hv : parseDigits (d0 :: dt) 0 = some v) :
    parseRest ('.' :: (d0 :: dt) ++ ['Z']) year month day hour min sec
      = some (Date year month day hour min sec ((v * 10 ^ k : Nat) : Int)) := by
  have hd0 : isDigitChar d0 = true := hdig d0 (List.mem_cons_self _ _)
  have hscan : scanDigits ('.' :: (d0 :: dt) ++ ['Z']) 2 = dt.length + 2 := by
    simp only [scanDigits, List.cons_append, List.drop_succ_cons, List.drop_zero]
    rw [takeWhile_digits_append dt [] 'Z' (fun c hc => hdig c (List.mem_cons_of_mem _ hc))
      (by decide)]
    omega
  have hnano : parseNanoseconds ('.' :: (d0 :: dt) ++ ['Z']) (dt.length + 2)
      = some (v * 10 ^ k) := by
    have hle : ¬ (dt.length + 2 > 10) := by
      simp only [List.length_cons] at hlen
      omega
    have hsl : slice ('.' :: (d0 :: dt) ++ ['Z']) 1 (dt.length + 2) = d0 :: dt := by
      simp [slice]
    have hk : 10 - (dt.length + 2) = k := by
      simp only [List.length_cons] at hlen
      omega
    have hsep : ¬ ¬ (('.' :: (d0 :: dt) ++ ['Z']).get? 0 = some '.' ∨
        ('.' :: (d0 :: dt) ++ ['Z']).get? 0 = some ',') := not_not.mpr (Or.inl rfl)
    simp only [parseNanoseconds, if_neg hsep, hle, if_false, hsl, hv, hk]
  have hdrop : List.drop (dt.length + 2) ('.' :: (d0 :: dt) ++ ['Z']) = ['Z'] := by
    simp
  have hcond : (('.' :: (d0 :: dt) ++ ['Z']).length ≥ 2 ∧
      ('.' :: (d0 :: dt) ++ ['Z']).get? 0 = some '.' ∧
      isDigit ('.' :: (d0 :: dt) ++ ['Z']) 1 = true) := by
    refine ⟨by simp, rfl, ?_⟩
    simp [isDigit, hd0]
  simp only [parseRest, hscan, hnano, hdrop, if_pos hcond, Option.getD_some, if_true]

theorem parseUint_lastDigits (w n lo hi : Nat) (hn : n < 10 ^ w) (h1 : lo ≤ n) (h2 : n ≤ hi) :
    parseUint (lastDigits w n) lo hi = some n := by
  have h : ¬ (n < lo ∨ hi < n) := by omega
  simp only [parseUint, parseDigits_lastDigits, Nat.zero_mul, Nat.zero_add,
    Nat.mod_eq_of_lt hn, h, if_false]

/-- The fast path of `Parse` reads back what `Format` writes from calendar
fields in range. -/
theorem parseRFC3339_fields (year month day hour min sec ns : Nat)
    (hy : year ≤ 9999) (hm1 : 1 ≤ month) (hm2 : month ≤ 12) (hd1 : 1 ≤ day)
    (hd2 : day ≤ daysIn month year) (hh : hour ≤ 23) (hi : min ≤ 59) (hs : sec ≤ 59)
    (hns : ns < 1000000000) :
    parseRFC3339 (lastDigits 4 year ++ ['-'] ++ lastDigits 2 month ++ ['-']
      ++ lastDigits 2 day ++ ['T'] ++ lastDigits 2 hour ++ [':'] ++ lastDigits 2 min ++ [':']
      ++ lastDigits 2 sec ++ fracPart ns ++ ['Z'])
      = some (Date year month day hour min sec ns) := by
  have hday : day ≤ 31 := by
    refine le_trans hd2 ?_
    simp only [daysIn]
    split
    · decide
    · interval_cases month <;> decide
  have hY := parseUint_lastDigits 4 year 0 9999 (by omega) (by omega) hy
  have hM := parseUint_lastDigits 2 month 1 12 (by omega) hm1 hm2
  have hD := parseUint_lastDigits 2 day 1 (daysIn month year) (by omega) hd1 hd2
  have hH := parseUint_lastDigits 2 hour 0 23 (by omega) (by omega) hh
  have hI := parseUint_lastDigits 2 min 0 59 (by omega) (by omega) hi
  have hS := parseUint_lastDigits 2 sec 0 59 (by omega) (by omega) hs
  simp only [lastDigits, List.nil_append, List.cons_append, List.append_assoc,
    List.singleton_append] at hY hM hD hH hI hS ⊢
  rw [parseRFC3339_shape _ _ _ _ _ _ _ _ _ _ _ _ _ _ _ year month day hour min sec
    hY hM hD hH hI hS]
  by_cases h0 : ns = 0
  · simp only [fracPart, h0, if_true, List.nil_append]
    rw [parseRest_Z]
    rfl
  · obtain ⟨d0, dt, k, v, hds, hlen, hdig, -, -, hv, hval⟩ := frac_digits ns h0 hns
    simp only [fracPart, h0, if_false, hds]
    rw [parseRest_frac d0 dt k v _ _ _ _ _ _ hlen hdig hv, hval]

theorem getnum_two (a b : Nat) (rest : Text) (isFixed : Bool) :
    getnum (digitChar a :: digitChar b :: rest) isFixed
      = some ((a % 10) * 10 + b % 10, rest) := by
  have ha : (48 + a % 10 - 48) = a % 10 := by omega
  have hb : (48 + b % 10 - 48) = b % 10 := by omega
  simp [getnum, isDigit, isDigitChar_digitChar, digitChar_toNat, ha, hb]

theorem parseLayout_shape (y a1 a0 b1 b0 h1 h0 i1 i0 s1 s0 : Nat) (rest : Text)
    (hy : y < 10000)
    (hm1 : 1 ≤ (a1 % 10) * 10 + a0 % 10) (hm2 : (a1 % 10) * 10 + a0 % 10 ≤ 12)
    (hh : (h1 % 10) * 10 + h0 % 10 < 24) (hi : (i1 % 10) * 10 + i0 % 10 < 60)
    (hs : (s1 % 10) * 10 + s0 % 10 < 60) :
    parseLayout (lastDigits 4 y ++ '-' :: digitChar a1 :: digitChar a0 :: '-' :: digitChar b1
      :: digitChar b0 :: 'T' :: digitChar h1 :: digitChar h0 :: ':' :: digitChar i1
      :: digitChar i0 :: ':' :: digitChar s1 :: digitChar s0 :: rest)
      = parseLayoutRest rest y ((a1 % 10) * 10 + a0 % 10) ((b1 % 10) * 10 + b0 % 10)
          ((h1 % 10) * 10 + h0 % 10) ((i1 % 10) * 10 + i0 % 10) ((s1 % 10) * 10 + s0 % 10) := by
  have hY := parseDigits_lastDigits 4 y 0
  rw [Nat.mod_eq_of_lt (by omega : y < 10 ^ 4)] at hY
  simp only [lastDigits, List.nil_append, List.cons_append, List.append_assoc,
    List.singleton_append, Nat.zero_mul, Nat.zero_add] at hY ⊢
  have h0' : ¬ (12 < (a1 % 10) * 10 + a0 % 10) := by omega
  have h1' : ¬ ((a1 % 10) * 10 + a0 % 10 = 0) := by omega
  have h2' : ¬ (24 ≤ (h1 % 10) * 10 + h0 % 10) := by omega
  have h3' : ¬ (60 ≤ (i1 % 10) * 10 + i0 % 10) := by omega
  have h4' : ¬ (60 ≤ (s1 % 10) * 10 + s0 % 10) := by omega
  simp only [parseLayout, slice, List.length_cons, List.drop_succ_cons, List.drop_zero,
    List.take_succ_cons, List.take_zero, List.drop, List.take, Nat.sub_zero, hY, skipChar,
    if_true, Option.some_bind, getnum_two, h0', h1', h2', h3', h4', or_self, if_false,
    isDigit, List.get?_cons_zero, isDigitChar_digitChar, Bool.not_true, Bool.false_eq_true,
    or_false]
  rw [if_neg (by omega)]

theorem parseLayoutRest_Z (year month day hour min sec : Nat) (hd1 : 1 ≤ day)
    (hd2 : day ≤ daysIn month year) :
    parseLayoutRest ['Z'] year month day hour min sec
      = some (Date year month day hour min sec 0) := by
  simp only [parseLayoutRest, parseZoneLayout, List.length_singleton, Nat.one_lt_ofNat,
    true_or, if_true, ne_eq, not_true_eq_false, if_false]
  rw [if_neg (by omega)]
  rfl

theorem parseLayoutRest_frac (d0 : Char) (dt : Text) (k v : Nat)
    (year month day hour min sec : Nat)
    (hd1 : 1 ≤ day) (hd2 : day ≤ daysIn month year)
    (hlen : (d0 :: dt).length + k = 9) (hdig : ∀ c ∈ d0 :: dt, isDigitChar c = true)
    (hv : parseDigits (d0 :: dt) 0 = some v) :
    parseLayoutRest ('.' :: (d0 :: dt) ++ ['Z']) year month day hour min sec
      = some (Date year month day hour min sec ((v * 10 ^ k : Nat) : Int)) := by
  have hd : ¬ (day < 1 ∨ day > daysIn month year) := by omega
  have hd0 : isDigitChar d0 = true := hdig d0 (List.mem_cons_self _ _)
  have hscan : scanDigits ('.' :: (d0 :: dt) ++ ['Z']) 1 = dt.length + 2 := by
    simp only [scanDigits, List.cons_append, List.drop_succ_cons, List.drop_zero]
    have := takeWhile_digits_append (d0 :: dt) [] 'Z' hdig (by decide)
    simp only [List.cons_append] at this
    rw [this]
    simp only [List.length_cons]
    omega
  have hnano : parseNanoseconds ('.' :: (d0 :: dt) ++ ['Z']) (dt.length + 2)
      = some (v * 10 ^ k) := by
    have hle : ¬ (dt.length + 2 > 10) := by
      simp only [List.length_cons] at hlen
      omega
    have hsl : slice ('.' :: (d0 :: dt) ++ ['Z']) 1 (dt.length + 2) = d0 :: dt := by
      simp [slice]
    have hk : 10 - (dt.length + 2) = k := by
      simp only [List.length_cons] at hlen
      omega
    have hsep : ¬ ¬ (('.' :: (d0 :: dt) ++ ['Z']).get? 0 = some '.' ∨
        ('.' :: (d0 :: dt) ++ ['Z']).get? 0 = some ',') := not_not.mpr (Or.inl rfl)
    simp only [parseNanoseconds, if_neg hsep, hle, if_false, hsl, hv, hk]
  have hdrop : List.drop (dt.length + 2) ('.' :: (d0 :: dt) ++ ['Z']) = ['Z'] := by
    simp
  have hcond : ¬ (('.' :: (d0 :: dt) ++ ['Z']).length < 2 ∨
      ¬ (('.' :: (d0 :: dt) ++ ['Z']).get? 0 = some '.' ∨
        ('.' :: (d0 :: dt) ++ ['Z']).get? 0 = some ',') ∨
      (!isDigit ('.' :: (d0 :: dt) ++ ['Z']) 1) = true) := by
    simp [isDigit, hd0]
  simp only [parseLayoutRest, if_neg hcond, hscan, hnano, hdrop, Option.map_some',
    parseZoneLayout, ne_eq, not_true_eq_false, if_false, hd]

/-- The general parser reads back what `Format` writes from calendar fields in
range, like the fast path. -/
theorem parseLayout_fields (year month day hour min sec ns : Nat)
    (hy : year ≤ 9999) (hm1 : 1 ≤ month) (hm2 : month ≤ 12) (hd1 : 1 ≤ day)
    (hd2 : day ≤ daysIn month year) (hh : hour ≤ 23) (hi : min ≤ 59) (hs : sec ≤ 59)
    (hns : ns < 1000000000) :
    parseLayout (lastDigits 4 year ++ ['-'] ++ lastDigits 2 month ++ ['-']
      ++ lastDigits 2 day ++ ['T'] ++ lastDigits 2 hour ++ [':'] ++ lastDigits 2 min ++ [':']
      ++ lastDigits 2 sec ++ fracPart ns ++ ['Z'])
      = some (Date year month day hour min sec ns) := by
  have hday : day ≤ 31 := by
    refine le_trans hd2 ?_
    simp only [daysIn]
    split
    · decide
    · interval_cases month <;> decide
  have e : ∀ n, n < 100 → (n / 10 % 10) * 10 + n % 10 = n := by
    intro n hn
    omega
  have hshape := parseLayout_shape year (month / 10) month (day / 10) day (hour / 10) hour
    (min / 10) min (sec / 10) sec (fracPart ns ++ ['Z']) (by omega)
    (by rw [e month (by omega)]; exact hm1) (by rw [e month (by omega)]; exact hm2)
    (by rw [e hour (by omega)]; omega) (by rw [e min (by omega)]; omega)
    (by rw [e sec (by omega)]; omega)
  rw [e month (by omega), e day (by omega), e hour (by omega), e min (by omega),
    e sec (by omega)] at hshape
  have hfmt : lastDigits 4 year ++ ['-'] ++ lastDigits 2 month ++ ['-']
      ++ lastDigits 2 day ++ ['T'] ++ lastDigits 2 hour ++ [':'] ++ lastDigits 2 min ++ [':']
      ++ lastDigits 2 sec ++ fracPart ns ++ ['Z']
      = lastDigits 4 year ++ '-' :: digitChar (month / 10) :: digitChar month :: '-'
        :: digitChar (day / 10) :: digitChar day :: 'T' :: digitChar (hour / 10)
        :: digitChar hour :: ':' :: digitChar (min / 10) :: digitChar min :: ':'
        :: digitChar (sec / 10) :: digitChar sec :: (fracPart ns ++ ['Z']) := by
    simp [lastDigits]
  rw [hfmt, hshape]
  by_cases h0 : ns = 0
  · simp only [fracPart, h0, if_true, List.nil_append]
    rw [parseLayoutRest_Z _ _ _ _ _ _ hd1 hd2]
    rfl
  · obtain ⟨d0, dt, k, v, hds, hlen, hdig, -, -, hv, hval⟩ := frac_digits ns h0 hns
    simp only [fracPart, h0, if_false, hds]
    rw [parseLayoutRest_frac d0 dt k v _ _ _ _ _ _ hd1 hd2 hlen hdig hv, hval]

theorem FormatRFC3339Nano_eq (t : Time) (h : inYearRange t) (hn : t.nsec < 1000000000) :
    ∃ year : Nat, (absDate t.abs).1 = (year : Int) ∧ year ≤ 9999 ∧
      FormatRFC3339Nano t = lastDigits 4 year ++ ['-'] ++ lastDigits 2 (absDate t.abs).2.1
        ++ ['-'] ++ lastDigits 2 (absDate t.abs).2.2 ++ ['T']
        ++ lastDigits 2 (absClock t.abs).1 ++ [':'] ++ lastDigits 2 (absClock t.abs).2.1
        ++ [':'] ++ lastDigits 2 (absClock t.abs).2.2 ++ fracPart t.nsec ++ ['Z'] ∧
      parseRFC3339 (FormatRFC3339Nano t) = some t ∧
      parseLayout (FormatRFC3339Nano t) = some t := by
  obtain ⟨year, hy, hy2, m1, m2, d1, d2, c1, c2, c3, hdate⟩ := civil_roundtrip t h hn
  have hday : (absDate t.abs).2.2 ≤ 31 := by
    refine le_trans d2 ?_
    generalize (absDate t.abs).2.1 = month at m1 m2
    simp only [daysIn]
    split
    · decide
    · interval_cases month <;> decide
  have hfmt : FormatRFC3339Nano t = lastDigits 4 year ++ ['-']
      ++ lastDigits 2 (absDate t.abs).2.1
      ++ ['-'] ++ lastDigits 2 (absDate t.abs).2.2 ++ ['T']
      ++ lastDigits 2 (absClock t.abs).1 ++ [':'] ++ lastDigits 2 (absClock t.abs).2.1
      ++ [':'] ++ lastDigits 2 (absClock t.abs).2.2 ++ fracPart t.nsec ++ ['Z'] := by
    simp only [FormatRFC3339Nano, hy, appendNano_eq _ _ hn]
    rw [appendInt_natCast year 4 (by decide) (by omega),
      appendInt_natCast (absDate t.abs).2.1 2 (by decide) (by omega),
      appendInt_natCast (absDate t.abs).2.2 2 (by decide) (by omega),
      appendInt_natCast (absClock t.abs).1 2 (by decide) (by omega),
      appendInt_natCast (absClock t.abs).2.1 2 (by decide) (by omega),
      appendInt_natCast (absClock t.abs).2.2 2 (by decide) (by omega)]
  refine ⟨year, hy, hy2, hfmt, ?_, ?_⟩
  · have hp := parseRFC3339_fields year (absDate t.abs).2.1 (absDate t.abs).2.2
      (absClock t.abs).1 (absClock t.abs).2.1 (absClock t.abs).2.2 t.nsec hy2 m1 m2 d1 d2
      c1 c2 c3 hn
    rw [hdate] at hp
    rw [hfmt, hp]
  · have hp := parseLayout_fields year (absDate t.abs).2.1 (absDate t.abs).2.2
      (absClock t.abs).1 (absClock t.abs).2.1 (absClock t.abs).2.2 t.nsec hy2 m1 m2 d1 d2
      c1 c2 c3 hn
    rw [hdate] at hp
    rw [hfmt, hp]

/-! ## The timestamp: the claim -/

/-- C7 (as stated, it fails): at the first instant of year 10000 the
timestamp has a five-digit year, and `time.Parse` with the `RFC3339Nano`
layout rejects it; one second before year 0 the timestamp starts with a sign
and is rejected too. -/
theorem timestamp_year_10000_rejected :
    year10000.nsec < 1000000000 ∧
    FormatRFC3339Nano year10000 = "10000-01-01T00:00:00Z".toList ∧
    ParseRFC3339Nano (FormatRFC3339Nano year10000) = none ∧
    FormatRFC3339Nano yearMinus1 = "-0001-12-31T23:59:59Z".toList ∧
    ParseRFC3339Nano (FormatRFC3339Nano yearMinus1) = none := by
  decide

/-- C7 (amended): for every instant from 0000-01-01T00:00:00Z to the last
nanosecond of year 9999, the timestamp `handleRoot` emits (the instant in UTC
in the `RFC3339Nano` layout) is accepted by `time.Parse` with that layout and
parses to the same instant, nanoseconds included; the fast path of `Parse` and
its general parser both return that instant. -/
theorem timestamp_roundtrip (now : Time) (lo : -62167219200 ≤ now.sec)
    (hi : now.sec ≤ 253402300799) (hn : now.nsec < 1000000000) :
    ParseRFC3339Nano (FormatRFC3339Nano now) = some now ∧
    parseRFC3339 (FormatRFC3339Nano now) = some now ∧
    parseLayout (FormatRFC3339Nano now) = some now ∧
    ∀ (w : ResponseWriter) (r : Request), w.wroteHeader = false →
      (∀ n, w.pending.head? ≠ some (WriteResult.err n)) →
      ∃ ts : Text, (handleRoot w r now).1.Body
          = w.Body ++ (TimeResponse.marshal
              { Timestamp := ofText ts, IP := getClientIP r } ++ ['\n'])
        ∧ jsonField "timestamp" (TimeResponse.marshal
              { Timestamp := ofText ts, IP := getClientIP r } ++ ['\n']) = some ts
        ∧ ParseRFC3339Nano ts = some now := by
  obtain ⟨_, _, _, _, hfast, hgen⟩ := FormatRFC3339Nano_eq now ⟨lo, hi⟩ hn
  have hparse : ParseRFC3339Nano (FormatRFC3339Nano now) = some now := by
    simp only [ParseRFC3339Nano, hfast]
  refine ⟨hparse, hfast, hgen, ?_⟩
  intro w r hw hok
  refine ⟨FormatRFC3339Nano now, (handleRoot_success w r now hw hok).2.2.2, ?_, hparse⟩
  rw [(jsonField_marshal _).1]
  exact congrArg some (replaceInvalidUTF8_ofText _)

theorem timestamp_roundtrip_witness :
    (-62167219200 ≤ exampleInstant.sec ∧ exampleInstant.sec ≤ 253402300799 ∧
      exampleInstant.nsec < 1000000000) ∧
    FormatRFC3339Nano exampleInstant = "2025-11-02T00:00:00.123456Z".toList ∧
    ParseRFC3339Nano (FormatRFC3339Nano exampleInstant) = some exampleInstant :=
  ⟨by decide, by decide,
    (timestamp_roundtrip exampleInstant (by decide) (by decide) (by decide)).1⟩

end SimpleTimeService
